import Mathlib

/-!
# RTG Invoice Tracker — verification of the core logic

Shallow embedding, in Lean 4, of the core modules of the `RTG-invoice-tracker`
repository, together with theorems settling the specification claims about
them.

Modelling conventions:
* JavaScript numbers are modelled as `ℚ` (exact rationals; no floating point).
* JavaScript `Date` values are modelled as an integer count of milliseconds
  since the Unix epoch, with the timezone idealised to UTC.  Calendar
  arithmetic (`new Date(y, m, d)`, Excel serial conversion) is implemented
  exactly, following the proleptic Gregorian calendar.
* Library primitives whose exact output text is irrelevant to every claim
  (`Date.prototype.toISOString`, `Number` → string coercion, the
  implementation-defined `new Date(string)` fallback parser) are parameters,
  bundled in `JsPrims`; theorems hold for every choice of these primitives.
* Asynchronous calls are modelled as deterministic oracles (`GeoEnv`); the
  rate limiter and the retry loop act only on wall-clock time and are not
  modelled.  Cache/provider *consultations* are recorded in an explicit event
  trace so that "without any provider call" is a statement about the trace.
-/

/-- A spreadsheet / record cell value: JS `string | number | Date | null`. -/
inductive Value where
  | str (s : String)
  | num (q : ℚ)
  | date (ms : Int)
  | null
deriving DecidableEq, Repr

/-- A `Row` / `InvoiceRecord`: a JS object, i.e. an association list from
column name to cell value (JS objects never hold duplicate keys). -/
abbrev InvoiceRecord := List (String × Value)

/-- Opaque JS library primitives, abstracted as parameters.  Every theorem
below holds for an arbitrary instantiation. -/
structure JsPrims where
  /-- `Date.prototype.toISOString` on a millisecond timestamp. -/
  toISO : Int → String
  /-- `new Date(string)` general parsing: `some ms` when the resulting date
  is valid, `none` when it is `Invalid Date` (NaN). -/
  jsDateParse : String → Option Int
  /-- `String(n)` for a JS number. -/
  numToStr : ℚ → String

/-! ## Distance calculator (`src/lib/distanceCalculator.ts`)

The repository carries two revisions of `calculateDistance`.  The current,
full-featured revision (same-address short-circuit, in-memory tier, durable
DB tier via `/api/distance-cache`, `skipCache` override) is embedded as
`calculateDistance`; the earlier revision (in-memory tier only, no
short-circuit) is embedded as `V1.calculateDistance`. -/

/-- Kernel-computable whitespace trim (the semantics of `String.trim` /
JS `trim()` for the ASCII whitespace the data contains). -/
def jsTrim (s : String) : String :=
  ⟨((s.data.dropWhile Char.isWhitespace).reverse.dropWhile
      Char.isWhitespace).reverse⟩

/-- Kernel-computable ASCII lower-casing (the semantics of
`String.toLowerCase()` on the ASCII headers/addresses the data contains). -/
def jsToLower (s : String) : String := ⟨s.data.map Char.toLower⟩

/-- Address normalisation used by the same-address check and by the durable
cache (`addressStorage.getCachedDistance` / `setCachedDistance`):
`s.trim().toLowerCase()`. -/
def normalizeAddr (s : String) : String := jsToLower (jsTrim s)

/-- The in-memory cache key `` `${origin}|${destination}` ``. -/
def cacheKeyOf (o d : String) : String := o ++ "|" ++ d

/-- The in-memory tier: a JS object mapping key strings to kilometres. -/
abbrev MemCache := List (String × ℚ)

/-- Property read `distanceCache[k]` (`undefined` ↦ `none`). -/
def memGet (m : MemCache) (k : String) : Option ℚ := m.lookup k

/-- Property write `distanceCache[k] = v` (overwrite in place, else append). -/
def memSet (m : MemCache) (k : String) (v : ℚ) : MemCache :=
  if m.any (·.1 == k) then m.map (fun e => if e.1 == k then (k, v) else e)
  else m ++ [(k, v)]

/-- JS truthiness of the cache read `if (distanceCache[k]) { ... }`:
a hit requires the key to be present *and* the stored number to be nonzero. -/
def truthyHit : Option ℚ → Bool
  | some v => v != 0
  | none => false

/-- The durable tier (`distance_cache` table): rows keyed by the ordered,
normalised `(origin_address, destination_address)` pair.  List order models
rowid order. -/
abbrev DbCache := List ((String × String) × ℚ)

/-- `getCachedDistance`: first row matching the normalised pair in either
order (`WHERE (o=? AND d=?) OR (o=? AND d=?)`).  Arguments are already
normalised by the caller here. -/
def dbGet : DbCache → String → String → Option ℚ
  | [], _, _ => none
  | e :: rest, o, d =>
    if e.1 = (o, d) ∨ e.1 = (d, o) then some e.2 else dbGet rest o d

/-- `setCachedDistance`: `INSERT OR REPLACE` keyed by the ordered normalised
pair (the conflicting row is deleted; the fresh row gets a fresh rowid, i.e.
goes to the end). -/
def dbSet (db : DbCache) (o d : String) (v : ℚ) : DbCache :=
  db.filter (fun e => ¬ e.1 = (o, d)) ++ [((o, d), v)]

/-- The external provider and configuration, as deterministic oracles. -/
structure GeoEnv where
  /-- `getOrsApiKey()` — `none` models a missing key. -/
  apiKey : Option String
  /-- Geocoding provider response: `some (lat, lng)` or no match. -/
  geocode : String → Option (ℚ × ℚ)
  /-- Directions provider response for two coordinate pairs: distance in
  metres, or no route. -/
  directions : (ℚ × ℚ) → (ℚ × ℚ) → Option ℚ

/-- `if (!apiKey)` — the key is usable when present and nonempty. -/
def keyOk (env : GeoEnv) : Bool :=
  match env.apiKey with
  | some k => k != ""
  | none => false

/-- Events recorded by the embedding: cache-tier consultations and outbound
provider calls. -/
inductive Ev where
  | memRead
  | dbRead
  | geo (address : String)
  | dir
deriving DecidableEq, Repr

/-- `geocodeAddress`: key check, empty-address check, then the provider fetch
(the fetch — and only the fetch — is a provider event). -/
def geocodeAddress (env : GeoEnv) (address : String) :
    Option (ℚ × ℚ) × List Ev :=
  if ¬ keyOk env then (none, [])
  else if jsTrim address = "" then (none, [])
  else (env.geocode address, [Ev.geo address])

/-- Mutable state of the distance layer: the two cache tiers. -/
structure CalcState where
  mem : MemCache
  db : DbCache
deriving DecidableEq, Repr

/-- Result of one `calculateDistance` call: returned value, post-state, and
the consultation/provider event trace. -/
structure CalcOut where
  res : Option ℚ
  st : CalcState
  evs : List Ev
deriving DecidableEq, Repr

/-- The uncached tail of `calculateDistance`: geocode origin, geocode
destination (sequentially), re-check the key, call the directions API, and on
success write through to both cache tiers. -/
def providerPath (env : GeoEnv) (s : CalcState) (evs : List Ev)
    (origin destination nO nD ck : String) : CalcOut :=
  let (oc?, e1) := geocodeAddress env origin
  match oc? with
  | none => ⟨none, s, evs ++ e1⟩
  | some oc =>
    let (dc?, e2) := geocodeAddress env destination
    match dc? with
    | none => ⟨none, s, evs ++ e1 ++ e2⟩
    | some dc =>
      if ¬ keyOk env then ⟨none, s, evs ++ e1 ++ e2⟩
      else
        match env.directions oc dc with
        | none => ⟨none, s, evs ++ e1 ++ e2 ++ [Ev.dir]⟩
        | some meters =>
          let km := meters / 1000
          ⟨some km,
           ⟨memSet s.mem ck km, dbSet s.db nO nD km⟩,
           evs ++ e1 ++ e2 ++ [Ev.dir]⟩

/-- Current revision of `calculateDistance(origin, destination, skipCache)`.
Order of business, as in the source: same-address short-circuit (returns 0
and writes through without consulting any tier); in-memory tier (forward then
reverse key, truthiness test); durable tier (symmetric lookup, write-back to
memory); provider path. -/
def calculateDistance (env : GeoEnv) (s : CalcState)
    (origin destination : String) (skipCache : Bool) : CalcOut :=
  let nO := normalizeAddr origin
  let nD := normalizeAddr destination
  let ck := cacheKeyOf origin destination
  if nO = nD then
    ⟨some 0, ⟨memSet s.mem ck 0, dbSet s.db nO nD 0⟩, []⟩
  else
    let rk := cacheKeyOf destination origin
    if skipCache then providerPath env s [] origin destination nO nD ck
    else
      if truthyHit (memGet s.mem ck) then ⟨memGet s.mem ck, s, [Ev.memRead]⟩
      else if truthyHit (memGet s.mem rk) then
        ⟨memGet s.mem rk, s, [Ev.memRead]⟩
      else
        match dbGet s.db nO nD with
        | some v =>
          ⟨some v, ⟨memSet s.mem ck v, s.db⟩, [Ev.memRead, Ev.dbRead]⟩
        | none =>
          providerPath env s [Ev.memRead, Ev.dbRead] origin destination nO nD ck

namespace V1

/-- Earlier revision of `calculateDistance` (`src/lib/distanceCalculator.ts`):
in-memory tier only, no same-address short-circuit, no durable tier, both
geocodes issued (Promise.all), API-key check only after geocoding. -/
def calculateDistance (env : GeoEnv) (mem : MemCache)
    (origin destination : String) : Option ℚ × MemCache × List Ev :=
  let ck := cacheKeyOf origin destination
  let rk := cacheKeyOf destination origin
  if truthyHit (memGet mem ck) then ⟨memGet mem ck, mem, []⟩
  else if truthyHit (memGet mem rk) then ⟨memGet mem rk, mem, []⟩
  else
    let (oc?, e1) := geocodeAddress env origin
    let (dc?, e2) := geocodeAddress env destination
    match oc?, dc? with
    | some oc, some dc =>
      if ¬ keyOk env then ⟨none, mem, e1 ++ e2⟩
      else
        match env.directions oc dc with
        | none => ⟨none, mem, e1 ++ e2 ++ [Ev.dir]⟩
        | some meters => ⟨some (meters / 1000), memSet mem ck (meters / 1000), e1 ++ e2 ++ [Ev.dir]⟩
    | _, _ => ⟨none, mem, e1 ++ e2⟩

/-- The value the provider path produces for a pair of addresses (geocode
both, then directions, metres → km), independent of any cache state. -/
def providerResult (env : GeoEnv) (origin destination : String) : Option ℚ :=
  match env.geocode origin, env.geocode destination with
  | some oc, some dc =>
    match env.directions oc dc with
    | some meters => some (meters / 1000)
    | none => none
  | _, _ => none

end V1

/-! ## Day-route calculator (`src/lib/routePlanner.ts`)

`calculateRoutesForInvoices` groups invoices by date and then walks each date
group in spreadsheet order.  The per-day walk (source lines 72–143) is
embedded here; an invoice is represented by its client-name cell, already
coerced to a string (`String(invoice[clientNameKey] || '')`), with the
source's `.trim()` applied inside the walk. -/

/-- `Math.round(x * 10) / 10` — round to one decimal place (JS `Math.round`
rounds half away from zero towards +∞, which is Mathlib's `round` on `ℚ`). -/
def round1 (x : ℚ) : ℚ := (round (x * 10) : ℤ) / 10

/-- The route calculator's collaborators: the address book lookup and the
distance layer (`calculateDistance`, abstracted as an oracle returning
kilometres or `null`). -/
structure RouteEnv where
  getClientAddress : String → Option String
  dist : String → String → Option ℚ

/-- `isLastValidInvoice`: is there a later invoice in the day whose (trimmed)
client name has a configured address? -/
def hasLaterValid (env : RouteEnv) (rest : List String) : Bool :=
  rest.any (fun nm => (env.getClientAddress (jsTrim nm)).isSome)

/-- One day's walk.  `lastValid` is `lastValidAddress` (initially the home
address).  A client without an address contributes 0 km and does not advance
`lastValid`; an addressed client gets the leg from `lastValid` (0 km when the
distance call fails), plus — when no later invoice of the day has a valid
address — the return leg to home, and the sum is rounded to one decimal. -/
def processDayGo (env : RouteEnv) (home : String) :
    Option String → List String → List ℚ
  | _, [] => []
  | lastValid, inv :: rest =>
    let clientName := jsTrim inv
    match env.getClientAddress clientName with
    | none => 0 :: processDayGo env home lastValid rest
    | some clientAddress =>
      let d0 : ℚ :=
        match lastValid with
        | some la => (env.dist la clientAddress).getD 0
        | none => 0
      let d1 : ℚ :=
        if hasLaterValid env rest then d0
        else d0 + (env.dist clientAddress home).getD 0
      round1 d1 :: processDayGo env home (some clientAddress) rest

/-- The per-day route computation: kilometres for each invoice of one date
group, in spreadsheet order, starting from home. -/
def processDay (env : RouteEnv) (home : String) (dayInvoices : List String) :
    List ℚ :=
  processDayGo env home (some home) dayInvoices

/-! ## Calendar arithmetic

Exact proleptic-Gregorian day/date conversions (days counted from the Unix
epoch 1970-01-01), used to give `new Date(year, month, day)` and the Excel
serial computation their meaning under the UTC idealisation. -/

/-- Gregorian leap year. -/
def isLeap (y : Int) : Bool := y % 4 = 0 ∧ (y % 100 ≠ 0 ∨ y % 400 = 0)

/-- Days in a month (`m` is 1-based). -/
def daysInMonth (y : Int) (m : Nat) : Nat :=
  if m = 2 then (if isLeap y then 29 else 28)
  else if m = 4 ∨ m = 6 ∨ m = 9 ∨ m = 11 then 30
  else 31

/-- Day count since 1970-01-01 of the civil date `y-m-d` (`m`, `d` 1-based;
`d` need not be in range, so that JS date rollover is expressible). -/
def daysFromCivil (y : Int) (m : Nat) (d : Int) : Int :=
  let y' : Int := if m ≤ 2 then y - 1 else y
  let era : Int := (if 0 ≤ y' then y' else y' - 399) / 400
  let yoe : Int := y' - era * 400
  let mp : Int := if 2 < m then (m : Int) - 3 else (m : Int) + 9
  let doy : Int := (153 * mp + 2) / 5 + d - 1
  let doe : Int := yoe * 365 + yoe / 4 - yoe / 100 + doy
  era * 146097 + doe - 719468

/-- Civil date `(year, month, day)` of a day count since 1970-01-01. -/
def civilFromDays (z0 : Int) : Int × Nat × Nat :=
  let z : Int := z0 + 719468
  let era : Int := (if 0 ≤ z then z else z - 146096) / 146097
  let doe : Int := z - era * 146097
  let yoe : Int := (doe - doe / 1460 + doe / 36524 - doe / 146096) / 365
  let y : Int := yoe + era * 400
  let doy : Int := doe - (365 * yoe + yoe / 4 - yoe / 100)
  let mp : Int := (5 * doy + 2) / 153
  let d : Int := doy - (153 * mp + 2) / 5 + 1
  let m : Int := if mp < 10 then mp + 3 else mp - 9
  ((if m ≤ 2 then y + 1 else y), m.toNat, d.toNat)

/-- Milliseconds per day. -/
def msPerDay : Int := 86400000

/-- JS `new Date(year, monthIndex0, day)` under the UTC idealisation: the
month index is normalised with year carry, the day rolls over freely, and the
two-digit-year quirk (`0 ≤ year ≤ 99` ↦ `1900 + year`) applies.  `m1` is the
source's 1-based month (`monthIndex0 + 1`). -/
def jsMakeDateMs (y : Int) (m1 : Int) (d : Int) : Int :=
  let y0 : Int := if 0 ≤ y ∧ y ≤ 99 then 1900 + y else y
  let mIdx : Int := m1 - 1
  let y' : Int := y0 + mIdx.fdiv 12
  let m' : Nat := (mIdx.emod 12 + 1).toNat
  (daysFromCivil y' m' 1 + (d - 1)) * msPerDay

/-- `(year, month, day)` of a millisecond timestamp (UTC idealisation). -/
def dateYMD (ms : Int) : Int × Nat × Nat := civilFromDays (ms.fdiv msPerDay)

/-! ## Spreadsheet ingestor (`src/lib/excelParser.ts`, current revision)

The workbook decoding (`XLSX.read` / `sheet_to_json` with `header: 1`,
`defval: null`, `raw: true`, `blankrows: true`) is the model's input: the
sheet is a ragged matrix `List (List Value)`. -/

/-- The string a cell contributes to header detection and row text:
`String(cell || '')` (falsy cells — `null`, `0`, `""` — give `""`; numbers
print via the abstract `numToStr`; a `Date` cell's `String(...)` rendering is
irrelevant to every claim and is taken from `toISO`). -/
def cellString (P : JsPrims) : Value → String
  | Value.str s => s
  | Value.num q => if q = 0 then "" else P.numToStr q
  | Value.date ms => P.toISO ms
  | Value.null => ""

/-- `parseInt` on a nonempty string of decimal digits. -/
def digitsToInt (cs : List Char) : Int :=
  cs.foldl (fun a c => a * 10 + (c.toNat - '0'.toNat : Int)) 0

/-- Splits a leading run of decimal digits. -/
def spanDigits (cs : List Char) : List Char × List Char :=
  cs.span (fun c => c.isDigit)

/-- Is the character one of the accepted separators `/` or `-`? -/
def isSep (c : Char) : Bool := c = '/' ∨ c = '-'

/-- Match `^(\d{1,2})[\/\-](\d{1,2})[\/\-](\d{4})$` against an (already
trimmed) string, returning `(first, second, year)` as integers. -/
def ddmmMatch (s : String) : Option (Int × Int × Int) :=
  let cs := s.toList
  let (g1, r1) := spanDigits cs
  if g1.length = 0 ∨ 2 < g1.length then none
  else
    match r1 with
    | c1 :: r2 =>
      if isSep c1 then
        let (g2, r3) := spanDigits r2
        if g2.length = 0 ∨ 2 < g2.length then none
        else
          match r3 with
          | c2 :: r4 =>
            if isSep c2 then
              let (g3, r5) := spanDigits r4
              if g3.length = 4 ∧ r5 = [] then
                some (digitsToInt g1, digitsToInt g2, digitsToInt g3)
              else none
            else none
          | [] => none
      else none
    | [] => none

/-- Match `^(\d{4})[\/\-](\d{1,2})[\/\-](\d{1,2})$` (ISO order), returning
`(year, month, day)`. -/
def isoMatch (s : String) : Option (Int × Int × Int) :=
  let cs := s.toList
  let (g1, r1) := spanDigits cs
  if g1.length ≠ 4 then none
  else
    match r1 with
    | c1 :: r2 =>
      if isSep c1 then
        let (g2, r3) := spanDigits r2
        if g2.length = 0 ∨ 2 < g2.length then none
        else
          match r3 with
          | c2 :: r4 =>
            if isSep c2 then
              let (g3, r5) := spanDigits r4
              if (g3.length = 1 ∨ g3.length = 2) ∧ r5 = [] then
                some (digitsToInt g1, digitsToInt g2, digitsToInt g3)
              else none
            else none
          | [] => none
      else none
    | [] => none

/-- The Excel serial epoch `new Date(1899, 11, 30)` in milliseconds. -/
def excelEpochMs : Int := daysFromCivil 1899 12 30 * msPerDay

/-- The `D[D]/M[M]/YYYY` branch of `parseDate` on a trimmed string: pattern
match, day/month interpretation (never month/day), range check, and the
`getDate()/getMonth()` round-trip check, which together accept exactly the
real calendar dates. -/
def ddmmAccepted (t : String) : Option Int :=
  match ddmmMatch t with
  | none => none
  | some (firstPart, secondPart, year) =>
    let day := firstPart
    let month := secondPart
    if 1 ≤ month ∧ month ≤ 12 ∧ 1 ≤ day ∧ day ≤ 31 ∧
        day ≤ (daysInMonth (if 0 ≤ year ∧ year ≤ 99 then 1900 + year else year)
          month.toNat : Int) then
      some (jsMakeDateMs year month day)
    else none

/-- The `YYYY-M[M]-D[D]` branch of `parseDate` on a trimmed string: the
constructed `new Date(year, month-1, day)` is accepted without a round-trip
check (out-of-range components roll over). -/
def isoAccepted (t : String) : Option Int :=
  match isoMatch t with
  | none => none
  | some (year, month, day) => some (jsMakeDateMs year month day)

/-- `parseDate` (current revision): `null`/falsy input gives `null`; a `Date`
passes through; a number is an Excel serial counted in days from the
1899-12-30 epoch; a string is tried against the two explicit patterns
(day/month/year first, then ISO) and otherwise kept as its raw string —
there is deliberately no `new Date(string)` fallback. -/
def parseDate : Value → Option Value
  | Value.null => none
  | Value.date ms => some (Value.date ms)
  | Value.num n =>
    if n = 0 then none
    else some (Value.date (excelEpochMs + ⌊n * (msPerDay : ℚ)⌋))
  | Value.str s =>
    if s = "" then none
    else
      let t := jsTrim s
      match ddmmAccepted t with
      | some ms => some (Value.date ms)
      | none =>
        match isoAccepted t with
        | some ms => some (Value.date ms)
        | none => some (Value.str s)

/-- JS truthiness of a cell value. -/
def jsTruthy : Value → Bool
  | Value.null => false
  | Value.str s => s ≠ ""
  | Value.num q => q ≠ 0
  | Value.date _ => true

/-- Is `pre` a prefix of `l`? -/
def charsPrefix : List Char → List Char → Bool
  | [], _ => true
  | _ :: _, [] => false
  | a :: as, b :: bs => a = b ∧ charsPrefix as bs

/-- Is `needle` a contiguous sublist of `hay`? -/
def charsInfix (needle : List Char) : List Char → Bool
  | [] => charsPrefix needle []
  | c :: cs => charsPrefix needle (c :: cs) ∨ charsInfix needle cs

/-- Substring test (`String.prototype.includes`). -/
def strContains (hay needle : String) : Bool :=
  charsInfix needle.toList hay.toList

/-- Split an entire string into `digits sep digits sep digits`, keeping the
groups and the two separator characters. -/
def splitDateGroups (cs : List Char) :
    Option (List Char × Char × List Char × Char × List Char) :=
  let (g1, r1) := spanDigits cs
  if g1.length = 0 then none
  else
    match r1 with
    | c1 :: r2 =>
      if isSep c1 then
        let (g2, r3) := spanDigits r2
        if g2.length = 0 then none
        else
          match r3 with
          | c2 :: r4 =>
            if isSep c2 then
              let (g3, r5) := spanDigits r4
              if g3.length ≠ 0 ∧ r5 = [] then some (g1, c1, g2, c2, g3)
              else none
            else none
          | [] => none
      else none
    | [] => none

/-- The four date-shape regexes of `isValidDate` (uniform separator;
`D[D] s M[M] s YYYY` or `YYYY s M[M] s D[D]`, with `s` either `/` or `-`). -/
def validDateShape (t : String) : Bool :=
  match splitDateGroups t.toList with
  | none => false
  | some (g1, c1, g2, c2, g3) =>
    c1 = c2 ∧
      ((1 ≤ g1.length ∧ g1.length ≤ 2 ∧ 1 ≤ g2.length ∧ g2.length ≤ 2 ∧
          g3.length = 4) ∨
        (g1.length = 4 ∧ 1 ≤ g2.length ∧ g2.length ≤ 2 ∧ 1 ≤ g3.length ∧
          g3.length ≤ 2))

/-- `isValidDate` — the first-column "real data row" test: a `Date` is valid;
a number must be a plausible Excel serial (`1 ≤ n ≤ 100000`); a string is
valid when the JS `Date` parser accepts it or it has one of the four date
shapes (the candidate `new Date(y, m, d)` constructions in the source never
produce `NaN` for in-pattern integers, so the shape alone decides). -/
def isValidDate (P : JsPrims) : Value → Bool
  | Value.null => false
  | Value.date _ => true
  | Value.num n => ¬(n < 1 ∨ 100000 < n)
  | Value.str s =>
    let t := jsTrim s
    if t = "" then false
    else if (P.jsDateParse t).isSome then true
    else validDateShape t

/-- The text of a sheet row used for header detection:
`row.map(c => String(c || '').toLowerCase().trim()).join(' ')`. -/
def rowText (P : JsPrims) (row : List Value) : String :=
  String.intercalate " " (row.map (fun c => jsTrim (jsToLower (cellString P c))))

/-- The header search terms. -/
def searchTerms : List String := ["lesson date", "client name"]

/-- Does a sheet row's text contain one of the header search terms? -/
def rowMatches (P : JsPrims) (row : List Value) : Bool :=
  searchTerms.any (fun term => strContains (rowText P row) term)

/-- Header-row auto-detection: try row index 9 (row 10) first; otherwise scan
indices 4 to `min 15 length - 1` (rows 5–15) in order, first match wins. -/
def findHeaderRow (P : JsPrims) (jd : List (List Value)) : Option Nat :=
  if 9 < jd.length ∧ rowMatches P (jd.getD 9 []) then some 9
  else (List.range' 4 (min 15 jd.length - 4)).find?
    (fun i => rowMatches P (jd.getD i []))

/-- Output of the spreadsheet ingestor (`ParsedInvoiceData` without the
optional metadata, which no claim touches). -/
structure ParsedSheet where
  records : List InvoiceRecord
  columns : List String
deriving DecidableEq, Repr

/-- JS object property assignment `record[k] = v` (overwrite in place). -/
def objSet (r : InvoiceRecord) (k : String) (v : Value) : InvoiceRecord :=
  if r.any (·.1 == k) then r.map (fun e => if e.1 == k then (k, v) else e)
  else r ++ [(k, v)]

/-- Is the header a date-bearing column
(`'lesson date' ⊆ h` or (`'date' ⊆ h` and not `'time' ⊆ h`), on the
lower-cased header)? -/
def isDateHeader (h : String) : Bool :=
  strContains (jsToLower h) "lesson date" ∨
    (strContains (jsToLower h) "date" ∧ ¬ strContains (jsToLower h) "time")

/-- Build one record from a data row: each header takes the cell at its
position in the *filtered* header list (the source indexes `row` by the
filtered header index); date-bearing columns go through `parseDate`. -/
def buildRecord (headers : List String) (row : List Value) : InvoiceRecord :=
  (headers.enum).foldl
    (fun rec (idx, header) =>
      let value := row.getD idx Value.null
      if isDateHeader header then
        (if jsTruthy value then objSet rec header ((parseDate value).getD Value.null)
         else objSet rec header Value.null)
      else objSet rec header value)
    []

/-- Does a built record carry any value other than `null`/`''`? -/
def hasData (rec : InvoiceRecord) : Bool :=
  rec.any (fun e => e.2 ≠ Value.null ∧ e.2 ≠ Value.str "")

/-- Does the record's first-header value read as a totals marker
(truthy and its string form contains `"total"`)? -/
def isTotalsRow (P : JsPrims) (headers : List String) (rec : InvoiceRecord)
    : Bool :=
  match headers with
  | [] => false
  | h0 :: _ =>
    match rec.lookup h0 with
    | some v =>
      jsTruthy v ∧ strContains (jsToLower (cellString P v)) "total"
    | none => false

/-- The data-row loop of `parseExcelBuffer`: rows after the header row are
kept when the first column passes `isValidDate`, the built record has data,
and it is not a totals row. -/
def extractRecords (P : JsPrims) (headers : List String)
    (dataRows : List (List Value)) : List InvoiceRecord :=
  dataRows.foldl
    (fun acc row =>
      if isValidDate P (row.getD 0 Value.null) then
        let r := buildRecord headers row
        if hasData r ∧ ¬ isTotalsRow P headers r then acc ++ [r]
        else acc
      else acc)
    []

/-- `parseExcelBuffer` (current revision) on the decoded sheet matrix: an
empty sheet yields an empty result; failing header detection throws; headers
are the detected row's nonempty trimmed cells; data rows follow. -/
def parseSheet (P : JsPrims) (jd : List (List Value)) :
    Except String ParsedSheet :=
  if jd = [] then Except.ok ⟨[], []⟩
  else
    match findHeaderRow P jd with
    | none => Except.error
        "Could not find header row with Lesson Date or Client Name."
    | some headerRowIndex =>
      let headerRow := jd.getD headerRowIndex []
      let headers :=
        (headerRow.map (fun h => jsTrim (cellString P h))).filter (· ≠ "")
      if headers = [] then Except.ok ⟨[], []⟩
      else
        Except.ok ⟨extractRecords P headers (jd.drop (headerRowIndex + 1)),
          headers⟩

/-! ## Record store (`src/lib/addressStorage.ts`, SQLite-backed revision)

Files, row records and column records are modelled as three tables with
append-order rowids; `uploaded_files.content_hash` uniqueness and other
constraint violations are absorbed into the failure oracle below.  The
`better-sqlite3` `transaction` combinator gives all-or-nothing semantics:
on any failing statement the store reverts to its prior state. -/

/-- `serializeRecord`: `Date` values become their ISO strings before the row
is stored as JSON. -/
def serializeValue (P : JsPrims) : Value → Value
  | Value.date ms => Value.str (P.toISO ms)
  | v => v

/-- Serialise every field of a record. -/
def serializeRecord (P : JsPrims) (r : InvoiceRecord) : InvoiceRecord :=
  r.map (fun e => (e.1, serializeValue P e.2))

/-- `deserializeRecord`: a string value in a column whose name contains
`"date"` (case-insensitive) is re-parsed with `new Date(value)` and replaced
by the date when valid. -/
def deserializeRecord (P : JsPrims) (r : InvoiceRecord) : InvoiceRecord :=
  r.map (fun e =>
    match e.2 with
    | Value.str s =>
      if strContains (jsToLower e.1) "date" then
        match P.jsDateParse s with
        | some ms => (e.1, Value.date ms)
        | none => (e.1, Value.str s)
      else (e.1, Value.str s)
    | v => (e.1, v))

/-- `String(x || '')` applied to a property read: a `Date` renders through
`toISOString` (the source only reaches this for `Date` via the explicit
`instanceof` branch), a string is itself, a nonzero number prints, and
everything falsy — absent property, `null`, `0`, `''` — gives `""`. -/
def valForKey (P : JsPrims) : Option Value → String
  | some (Value.date ms) => P.toISO ms
  | some (Value.str s) => s
  | some (Value.num n) => if n = 0 then "" else P.numToStr n
  | some Value.null => ""
  | none => ""

/-- `getRecordKey` — the reconciliation row key: the value of the column
named exactly `'Lesson Date'` (ISO string for a `Date`), then `"|"`, then the
value of the column named exactly `'Client Name'`. -/
def getRecordKey (P : JsPrims) (r : InvoiceRecord) : String :=
  valForKey P (r.lookup "Lesson Date") ++ "|" ++
    valForKey P (r.lookup "Client Name")

/-- `recordsEqual`: the two records' non-null field sets have equal size and
every non-null field of `a` strictly equals `b`'s value at that key (`Date`s
compare by timestamp). -/
def recordsEqual (a b : InvoiceRecord) : Bool :=
  let aK := a.filter (fun e => e.2 ≠ Value.null)
  let bK := b.filter (fun e => e.2 ≠ Value.null)
  aK.length = bK.length ∧ aK.all (fun e =>
    match b.lookup e.1 with
    | some bv => e.2 = bv
    | none => false)

/-- A parsed file as handed to the store (`ParsedInvoiceData`): rows, column
list, and the optional declared total amount. -/
structure ParsedInvoiceData where
  records : List InvoiceRecord
  columns : List String
  totalAmount : Option ℚ
deriving DecidableEq, Repr

/-- A row of `uploaded_files`. -/
structure FileRow where
  id : Nat
  filename : String
  contentHash : String
  totalAmount : ℚ
deriving DecidableEq, Repr

/-- A row of `invoice_records` (`record_data` plus the nullable `kilometers`
column). -/
structure RecordRow where
  id : Nat
  fileId : Nat
  record : InvoiceRecord
  kilometers : Option ℚ
deriving DecidableEq, Repr

/-- A row of `file_columns`. -/
structure ColRow where
  id : Nat
  fileId : Nat
  column : String
deriving DecidableEq, Repr

/-- The durable store: the three tables (in rowid order) and the next
autoincrement ids. -/
structure Store where
  files : List FileRow
  rows : List RecordRow
  cols : List ColRow
  nextFileId : Nat
  nextRowId : Nat
  nextColId : Nat
deriving DecidableEq, Repr

/-- `getFileRecords`: the file's stored records in rowid order, each given
its `_dbId` field and, when the `kilometers` column is non-null, a
`kilometers` field. -/
def getFileRecords (s : Store) (fid : Nat) : List InvoiceRecord :=
  (s.rows.filter (·.fileId == fid)).map (fun r =>
    let withId := objSet r.record "_dbId" (Value.num r.id)
    match r.kilometers with
    | some k => objSet withId "kilometers" (Value.num k)
    | none => withId)

/-- `getFileColumns`: the file's column names in rowid order. -/
def getFileColumns (s : Store) (fid : Nat) : List String :=
  (s.cols.filter (·.fileId == fid)).map (·.column)

/-- One primitive SQL write, as seen by the failure oracle. -/
inductive WriteOp where
  | insFile (filename contentHash : String) (total : ℚ)
  | insRow (fileId : Nat) (record : InvoiceRecord)
  | insCol (fileId : Nat) (column : String)
  | delFile (fileId : Nat)
deriving DecidableEq, Repr

/-- A failure oracle: decides which primitive writes throw (covering
constraint violations such as a duplicate `content_hash`, I/O errors, ...). -/
abbrev FailOracle := WriteOp → Bool

/-- Insert into `uploaded_files`; returns `lastInsertRowid`. -/
def insFileW (fail : FailOracle) (s : Store) (fn hash : String) (total : ℚ) :
    Option (Nat × Store) :=
  if fail (WriteOp.insFile fn hash total) then none
  else some (s.nextFileId,
    { s with files := s.files ++ [⟨s.nextFileId, fn, hash, total⟩],
             nextFileId := s.nextFileId + 1 })

/-- Insert into `invoice_records` (`kilometers` defaults to NULL). -/
def insRowW (fail : FailOracle) (s : Store) (fid : Nat) (r : InvoiceRecord) :
    Option Store :=
  if fail (WriteOp.insRow fid r) then none
  else some { s with rows := s.rows ++ [⟨s.nextRowId, fid, r, none⟩],
                     nextRowId := s.nextRowId + 1 }

/-- Insert into `file_columns`. -/
def insColW (fail : FailOracle) (s : Store) (fid : Nat) (c : String) :
    Option Store :=
  if fail (WriteOp.insCol fid c) then none
  else some { s with cols := s.cols ++ [⟨s.nextColId, fid, c⟩],
                     nextColId := s.nextColId + 1 }

/-- `deleteFile`: delete the `uploaded_files` row; the schema's
`ON DELETE CASCADE` removes the file's records and columns. -/
def delFileW (fail : FailOracle) (s : Store) (fid : Nat) : Option Store :=
  if fail (WriteOp.delFile fid) then none
  else some { s with files := s.files.filter (fun f => ¬ f.id = fid),
                     rows := s.rows.filter (fun r => ¬ r.fileId = fid),
                     cols := s.cols.filter (fun c => ¬ c.fileId = fid) }

/-- The body of `saveInvoiceData`'s transaction: insert the file row, then
every (serialised) record, then every column. -/
def saveBody (fail : FailOracle) (P : JsPrims) (s : Store)
    (filename contentHash : String) (data : ParsedInvoiceData) :
    Option (Nat × Store) :=
  match insFileW fail s filename contentHash (data.totalAmount.getD 0) with
  | none => none
  | some (fid, s1) =>
    match data.records.foldlM
        (fun st r => insRowW fail st fid (serializeRecord P r)) s1 with
    | none => none
    | some s2 =>
      match data.columns.foldlM (fun st c => insColW fail st fid c) s2 with
      | none => none
      | some s3 => some (fid, s3)

/-- `saveInvoiceData`: the body runs inside a transaction — on any failing
statement the store is rolled back to its prior state and the caller gets an
error. -/
def saveInvoiceData (fail : FailOracle) (P : JsPrims) (s : Store)
    (filename contentHash : String) (data : ParsedInvoiceData) :
    Except Unit Nat × Store :=
  match saveBody fail P s filename contentHash data with
  | some (fid, s') => (Except.ok fid, s')
  | none => (Except.error (), s)

/-- The body of `replaceFile`'s transaction: delete the existing file, then
save the new data. -/
def replaceBody (fail : FailOracle) (P : JsPrims) (s : Store) (fid : Nat)
    (filename contentHash : String) (data : ParsedInvoiceData) :
    Option (Nat × Store) :=
  match delFileW fail s fid with
  | none => none
  | some s1 => saveBody fail P s1 filename contentHash data

/-- `replaceFile`: atomic delete-then-save. -/
def replaceFile (fail : FailOracle) (P : JsPrims) (s : Store) (fid : Nat)
    (filename contentHash : String) (data : ParsedInvoiceData) :
    Except Unit Nat × Store :=
  match replaceBody fail P s fid filename contentHash data with
  | some (nf, s') => (Except.ok nf, s')
  | none => (Except.error (), s)

/-- First-occurrence deduplication (`[...new Set(xs)]`). -/
def dedupFirst (xs : List String) : List String :=
  xs.foldl (fun acc x => if acc.contains x then acc else acc ++ [x]) []

/-- The merged data `mergeFile` builds before its transaction: the existing
(deserialised) records followed by exactly those new records whose row key is
absent from the existing records' keys; unioned columns; summed totals. -/
def mergedDataOf (P : JsPrims) (s : Store) (existingFileId : Nat)
    (data : ParsedInvoiceData) : ParsedInvoiceData :=
  let existingRecords := getFileRecords s existingFileId
  let existingColumns := getFileColumns s existingFileId
  let existingTotal : ℚ :=
    ((s.files.find? (·.id == existingFileId)).map (·.totalAmount)).getD 0
  let existingKeys := existingRecords.map (getRecordKey P)
  let newRecords := data.records.filter
    (fun r => ¬ existingKeys.contains (getRecordKey P r))
  { records := existingRecords.map (deserializeRecord P) ++ newRecords,
    columns := dedupFirst (existingColumns ++ data.columns),
    totalAmount := some (existingTotal + data.totalAmount.getD 0) }

/-- `mergeFile`: read the existing file's records/columns/total, build the
merged data, then atomically delete-and-save it. -/
def mergeFile (fail : FailOracle) (P : JsPrims) (s : Store)
    (existingFileId : Nat) (filename contentHash : String)
    (data : ParsedInvoiceData) : Except Unit Nat × Store :=
  let mergedData := mergedDataOf P s existingFileId data
  match replaceBody fail P s existingFileId filename contentHash mergedData with
  | some (nf, s') => (Except.ok nf, s')
  | none => (Except.error (), s)

/-! ## Reconciliation (`compareFileData`) -/

/-- The reconciliation diff. -/
structure DiffResult where
  added : List InvoiceRecord
  removed : List InvoiceRecord
  modified : List (InvoiceRecord × InvoiceRecord)
  unchanged : Nat
deriving DecidableEq, Repr

/-- `Map.set`: overwrite in place, else append (JS `Map` keeps the original
insertion position on overwrite). -/
def jsMapSet (m : List (String × InvoiceRecord)) (k : String)
    (v : InvoiceRecord) : List (String × InvoiceRecord) :=
  if m.any (·.1 == k) then m.map (fun e => if e.1 == k then (k, v) else e)
  else m ++ [(k, v)]

/-- Build the keyed `Map` of a record list (later records with a duplicate
key overwrite earlier ones). -/
def buildMap (P : JsPrims) (rs : List InvoiceRecord) :
    List (String × InvoiceRecord) :=
  rs.foldl (fun m r => jsMapSet m (getRecordKey P r) r) []

/-- The first pass of `compareFileData`: classify every entry of the new map
as added (key absent from the existing map), modified, or unchanged. -/
def diffStep1 (exM newM : List (String × InvoiceRecord)) : DiffResult :=
  newM.foldl
    (fun d kv =>
      match exM.lookup kv.1 with
      | none => { d with added := d.added ++ [kv.2] }
      | some er =>
        if recordsEqual er kv.2 then { d with unchanged := d.unchanged + 1 }
        else { d with modified := d.modified ++ [(er, kv.2)] })
    ⟨[], [], [], 0⟩

/-- `compareFileData`: load and deserialise the existing file's records, key
both sides, then classify (added/modified/unchanged from the new map,
removed from the existing map). -/
def compareFileData (P : JsPrims) (s : Store) (fid : Nat)
    (newData : ParsedInvoiceData) : DiffResult :=
  let existingRecords := (getFileRecords s fid).map (deserializeRecord P)
  let exM := buildMap P existingRecords
  let newM := buildMap P newData.records
  let d1 := diffStep1 exM newM
  exM.foldl
    (fun d kv =>
      if (newM.lookup kv.1).isNone then { d with removed := d.removed ++ [kv.2] }
      else d)
    d1

/-! ## Auxiliary definitions used by the theorems -/

/-- The failure oracle under which no primitive write throws. -/
def noFail : FailOracle := fun _ => false

/-- Store well-formedness: every table row references a file id below the
next autoincrement value (true of every store the code can build). -/
def StoreWF (s : Store) : Prop :=
  (∀ f ∈ s.files, f.id < s.nextFileId) ∧
  (∀ r ∈ s.rows, r.fileId < s.nextFileId) ∧
  (∀ c ∈ s.cols, c.fileId < s.nextFileId)

/-- The in-memory cache holds no *conflicting* pair of truthy entries for
the two orderings of any address pair.  (Every state reachable without the
explicit skip-cache override satisfies this; the override can violate it —
see the C3 counterexample.) -/
def memConsistent (m : MemCache) : Prop :=
  ∀ x y v w, memGet m (cacheKeyOf x y) = some v → ¬ v = 0 →
    memGet m (cacheKeyOf y x) = some w → ¬ w = 0 → v = w

/-- Does an event trace contain no outbound provider call (geocode or
directions)? -/
def providerFree (evs : List Ev) : Bool :=
  evs.all (fun e =>
    match e with
    | Ev.geo _ => false
    | Ev.dir => false
    | _ => true)

/-- A concrete instantiation of the abstract JS primitives, used by the
closed witness/counterexample statements. -/
def Pc : JsPrims :=
  { toISO := fun ms => toString ms,
    jsDateParse := fun _ => none,
    numToStr := fun q => toString q }

/-- A concrete route environment for the C1 witness: clients `C1`, `C2` at
addresses `A1`, `A2`, with distances H→A1 = 1, A1→A2 = 2, A2→H = 3/2. -/
def routeEnvW : RouteEnv :=
  { getClientAddress := fun n =>
      if n = "C1" then some "A1" else if n = "C2" then some "A2" else none,
    dist := fun a b =>
      if a = "H" ∧ b = "A1" then some 1
      else if a = "A1" ∧ b = "A2" then some 2
      else if a = "A2" ∧ b = "H" then some (3 / 2)
      else none }

/-- A provider whose directions are direction-dependent (as real road routes
are): p→q measures 1000 m but q→p measures 2000 m. -/
def envAsym : GeoEnv :=
  { apiKey := some "k",
    geocode := fun a =>
      if a = "p" then some (0, 0) else if a = "q" then some (1, 1) else none,
    directions := fun c _ => if c = (0, 0) then some 1000 else some 2000 }

/-- A one-route provider used by closed witness statements. -/
def envUnit : GeoEnv :=
  { apiKey := some "k",
    geocode := fun _ => some (0, 0),
    directions := fun _ _ => some 1000 }

/-- The all-or-nothing contract for a store mutation: either the operation
errored and the store is exactly its prior state, or it returned a file id
under which the file row, every row record, and every column record of the
expected data are present together. -/
def CommitOutcome (P : JsPrims) (prior : Store)
    (out : Except Unit Nat × Store) (filename contentHash : String)
    (expected : ParsedInvoiceData) : Prop :=
  (out.1 = Except.error () ∧ out.2 = prior) ∨
  (∃ nf, out.1 = Except.ok nf ∧
    out.2.files.filter (·.id == nf)
      = [⟨nf, filename, contentHash, expected.totalAmount.getD 0⟩] ∧
    ((out.2.rows.filter (·.fileId == nf)).map (·.record)
      = expected.records.map (serializeRecord P)) ∧
    getFileColumns out.2 nf = expected.columns)

/-! ## Claim theorems -/

/-- Every kilometres value a day walk emits is `round1` of some quantity
(unaddressed rows emit `0 = round1 0`). -/
theorem processDayGo_mem_round1 (env : RouteEnv) (home : String) :
    ∀ (lastValid : Option String) (invs : List String) (km : ℚ),
      km ∈ processDayGo env home lastValid invs → ∃ q, km = round1 q := by
  intro lastValid invs
  induction invs generalizing lastValid with
  | nil => intro km h; simp [processDayGo] at h
  | cons inv rest ih =>
    intro km h
    rw [processDayGo] at h
    rcases hcl : env.getClientAddress (jsTrim inv) with _ | addr
    · rw [hcl] at h
      rcases List.mem_cons.mp h with h0 | h0
      · exact ⟨0, by rw [h0]; simp [round1]⟩
      · exact ih _ _ h0
    · rw [hcl] at h
      rcases List.mem_cons.mp h with h0 | h0
      · exact ⟨_, h0⟩
      · exact ih _ _ h0

/-- C1 (confirmed).  For a date group with home `H` and addressed clients
`C1`, `C2` in spreadsheet order, the route calculator assigns
row 1 = `round1 (distance H C1)` and
row 2 = `round1 (distance C1 C2 + distance C2 H)` — the last row with a
valid client address absorbs the return leg into its own kilometres — and
every emitted kilometres value is rounded to one decimal place. -/
theorem claim_C1_day_route_scenario (env : RouteEnv)
    (home c1 c2 a1 a2 : String) (d1 d2 d3 : ℚ)
    (h1 : env.getClientAddress (jsTrim c1) = some a1)
    (h2 : env.getClientAddress (jsTrim c2) = some a2)
    (hd1 : env.dist home a1 = some d1)
    (hd2 : env.dist a1 a2 = some d2)
    (hd3 : env.dist a2 home = some d3) :
    processDay env home [c1, c2] = [round1 d1, round1 (d2 + d3)] ∧
    ∀ (invs : List String) (km : ℚ), km ∈ processDay env home invs →
      ∃ q, km = round1 q := by
  constructor
  · simp [processDay, processDayGo, hasLaterValid, h1, h2, hd1, hd2, hd3]
  · intro invs km h
    exact processDayGo_mem_round1 env home _ invs km h

/-- Witness for C1 at a concrete environment. -/
theorem claim_C1_witness :
    processDay routeEnvW "H" ["C1", "C2"] = [round1 1, round1 (2 + 3 / 2)] :=
  (claim_C1_day_route_scenario routeEnvW "H" "C1" "C2" "A1" "A2" 1 2 (3 / 2)
    (by rfl) (by rfl) (by rfl) (by rfl) (by rfl)).1

/-- C2 (confirmed).  A request whose origin and destination agree up to
casing and surrounding whitespace returns 0 with an empty consultation
trace: no cache tier is read and no provider (geocode or directions) call is
made (this holds even in skip-cache mode). -/
theorem claim_C2_same_address_short_circuit (env : GeoEnv) (s : CalcState)
    (origin destination : String) (sc : Bool)
    (h : normalizeAddr origin = normalizeAddr destination) :
    (calculateDistance env s origin destination sc).res = some 0 ∧
    (calculateDistance env s origin destination sc).evs = [] := by
  simp [calculateDistance, h]

/-- Witness for C2: two cosmetically different spellings of one address. -/
theorem claim_C2_witness :
    (calculateDistance envUnit ⟨[], []⟩ " X St " "x sT" false).res = some 0 ∧
    (calculateDistance envUnit ⟨[], []⟩ " X St " "x sT" false).evs = [] :=
  claim_C2_same_address_short_circuit envUnit ⟨[], []⟩ " X St " "x sT" false
    (by decide)

/-- C6 counterexample.  The reconciliation key reads the columns named
exactly `'Lesson Date'` and `'Client Name'`; for rows whose headers are
`"date"` and `"client"` instead, both components come out empty, so two rows
with different date and client values share the constant key `"|"` — the key
does not use those rows' date and client values, contradicting the claimed
case-insensitive substring matching over column names. -/
theorem claim_C6_counterexample :
    getRecordKey Pc [("date", Value.date 0), ("client", Value.str "Alice")]
      = "|" ∧
    getRecordKey Pc
      [("date", Value.date 86400000), ("client", Value.str "Bob")] = "|" := by
  constructor <;> rfl

/-- C6 (corrected).  The reconciliation row key is built from the columns
named exactly `'Lesson Date'` and `'Client Name'` (no case-insensitive
substring matching): when those exact columns are present the key is the
date's ISO string, `"|"`, and the client value; when both are absent the key
degenerates to `"|"`. -/
theorem claim_C6_amended (P : JsPrims) :
    (∀ (r : InvoiceRecord) (d : Int) (c : String),
      r.lookup "Lesson Date" = some (Value.date d) →
      r.lookup "Client Name" = some (Value.str c) →
      getRecordKey P r = P.toISO d ++ "|" ++ c) ∧
    (∀ r : InvoiceRecord,
      r.lookup "Lesson Date" = none → r.lookup "Client Name" = none →
      getRecordKey P r = "|") := by
  constructor
  · intro r d c hd hc
    simp [getRecordKey, hd, hc, valForKey]
  · intro r hd hc
    simp [getRecordKey, hd, hc, valForKey]

/-- Witness for C6 at a concrete record with the exact headers. -/
theorem claim_C6_witness :
    getRecordKey Pc
      [("Lesson Date", Value.date 0), ("Client Name", Value.str "Alice")]
      = Pc.toISO 0 ++ "|" ++ "Alice" :=
  (claim_C6_amended Pc).1
    [("Lesson Date", Value.date 0), ("Client Name", Value.str "Alice")]
    0 "Alice" (by rfl) (by rfl)

/-- C7 counterexample.  Excel serial 45000, counted from the 1899-12-30
epoch, lands on 2023-03-15 (day 19431 of the Unix era) — March, in the first
half of 2023, so not a date "in late 2023" as the claim's example asserts. -/
theorem claim_C7_counterexample :
    parseDate (Value.num 45000) = some (Value.date (19431 * msPerDay)) ∧
    dateYMD (19431 * msPerDay) = (2023, 3, 15) ∧ (3 : ℕ) < 7 := by
  refine ⟨?_, by decide, by decide⟩
  have he : excelEpochMs = -2209161600000 := by decide
  have hm : (msPerDay : ℚ) = ((86400000 : Int) : ℚ) := by norm_num [msPerDay]
  simp only [parseDate, he, hm]
  norm_num [msPerDay]

/-- C7 (corrected).  `"03/04/2024"` parses as day 3, month 4, year 2024
(never month 3 / day 4); a numeric value is an Excel serial counted in days
from the 1899-12-30 epoch, so serial 45000 lands on 2023-03-15 (a 2023 date,
but in March — not "late 2023" as the claim's example said); and a nonempty
string matching neither accepted pattern is retained as the raw string, not
coerced. -/
theorem claim_C7_amended :
    parseDate (Value.str "03/04/2024")
      = some (Value.date (jsMakeDateMs 2024 4 3)) ∧
    dateYMD (jsMakeDateMs 2024 4 3) = (2024, 4, 3) ∧
    parseDate (Value.num 45000) = some (Value.date (19431 * msPerDay)) ∧
    dateYMD (19431 * msPerDay) = (2023, 3, 15) ∧
    ∀ s : String, ¬ s = "" → ddmmAccepted (jsTrim s) = none →
      isoAccepted (jsTrim s) = none →
      parseDate (Value.str s) = some (Value.str s) := by
  refine ⟨by decide, by decide, ?_, by decide, ?_⟩
  · have he : excelEpochMs = -2209161600000 := by decide
    have hm : (msPerDay : ℚ) = ((86400000 : Int) : ℚ) := by norm_num [msPerDay]
    simp only [parseDate, he, hm]
    norm_num [msPerDay]
  · intro s hne hdd hiso
    simp [parseDate, hne, hdd, hiso]

/-- Witness for C7's raw-string retention at a date-looking but unmatched
string. -/
theorem claim_C7_witness :
    parseDate (Value.str "April 3, 2024") = some (Value.str "April 3, 2024") :=
  claim_C7_amended.2.2.2.2 "April 3, 2024" (by decide) (by decide) (by decide)

/-- C10 (confirmed, against the revision at `src/lib/distanceCalculator.ts`).
When the in-memory cache holds exactly 0 km for a pair (and nothing truthy
for the reverse ordering), a request for that pair in either order does not
hit the in-memory cache: the truthiness test treats the stored 0 as a miss,
and the geocode/provider path is taken again (a geocode fetch for the origin
is issued and the result is the provider-path outcome, not the cached 0). -/
theorem claim_C10_zero_treated_as_miss (env : GeoEnv) (mem : MemCache)
    (A B : String)
    (hk : keyOk env = true) (hA : ¬ jsTrim A = "") (hB : ¬ jsTrim B = "")
    (h0 : memGet mem (cacheKeyOf A B) = some 0)
    (h0' : memGet mem (cacheKeyOf B A) = some 0 ∨
      memGet mem (cacheKeyOf B A) = none) :
    ((V1.calculateDistance env mem A B).1 = V1.providerResult env A B ∧
      Ev.geo A ∈ (V1.calculateDistance env mem A B).2.2) ∧
    ((V1.calculateDistance env mem B A).1 = V1.providerResult env B A ∧
      Ev.geo B ∈ (V1.calculateDistance env mem B A).2.2) := by
  have hgA : geocodeAddress env A = (env.geocode A, [Ev.geo A]) := by
    simp [geocodeAddress, hk, hA]
  have hgB : geocodeAddress env B = (env.geocode B, [Ev.geo B]) := by
    simp [geocodeAddress, hk, hB]
  have hrev : truthyHit (memGet mem (cacheKeyOf B A)) = false := by
    rcases h0' with h | h <;> simp [h, truthyHit]
  have hfwd : truthyHit (some (0 : ℚ)) = false := by decide
  constructor
  · rw [V1.calculateDistance, h0, hgA, hgB]
    simp only [hfwd, hrev, Bool.false_eq_true, if_false]
    cases hA' : env.geocode A with
    | none => simp [V1.providerResult, hA']
    | some oc =>
      cases hB' : env.geocode B with
      | none => simp [V1.providerResult, hA', hB']
      | some dc =>
        cases hd : env.directions oc dc with
        | none => simp [V1.providerResult, hA', hB', hd, hk]
        | some meters => simp [V1.providerResult, hA', hB', hd, hk]
  · rw [V1.calculateDistance, h0, hgA, hgB, hrev]
    simp only [hfwd, Bool.false_eq_true, if_false]
    cases hB' : env.geocode B with
    | none => simp [V1.providerResult, hB']
    | some oc =>
      cases hA' : env.geocode A with
      | none => simp [V1.providerResult, hA', hB']
      | some dc =>
        cases hd : env.directions oc dc with
        | none => simp [V1.providerResult, hA', hB', hd, hk]
        | some meters => simp [V1.providerResult, hA', hB', hd, hk]

/-- Witness for C10 at a concrete cache holding 0 for the pair. -/
theorem claim_C10_witness :
    (V1.calculateDistance envUnit [("a|b", 0)] "a" "b").1
      = V1.providerResult envUnit "a" "b" ∧
    Ev.geo "a" ∈ (V1.calculateDistance envUnit [("a|b", 0)] "a" "b").2.2 :=
  (claim_C10_zero_treated_as_miss envUnit [("a|b", 0)] "a" "b"
    (by rfl) (by decide) (by decide) (by rfl) (Or.inr (by rfl))).1

/-- `List.find?` over `List.range' start len`: a found index is in range,
satisfies the predicate, and is the first such index. -/
theorem find_range'_spec (p : Nat → Bool) :
    ∀ (len start i : Nat), (List.range' start len).find? p = some i →
      start ≤ i ∧ i < start + len ∧ p i = true ∧
      ∀ j, start ≤ j → j < i → p j = false := by
  intro len
  induction len with
  | zero => intro start i h; simp at h
  | succ n ih =>
    intro start i h
    rw [List.range'_succ] at h
    by_cases hp : p start
    · rw [List.find?_cons_of_pos _ hp] at h
      obtain rfl : start = i := by injection h
      exact ⟨le_refl _, by omega, hp, fun j h1 h2 => absurd h1 (by omega)⟩
    · rw [List.find?_cons_of_neg _ hp] at h
      obtain ⟨h1, h2, h3, h4⟩ := ih (start + 1) i h
      refine ⟨by omega, by omega, h3, fun j hj1 hj2 => ?_⟩
      by_cases hj : j = start
      · subst hj; exact Bool.not_eq_true _ |>.mp hp
      · exact h4 j (by omega) hj2

/-- C8 counterexample.  A sheet that decodes to no rows at all — in whose
scan range therefore no row matches — does not fail with a parse error as
the claim requires: `parseExcelBuffer` returns an empty success result
before header detection runs. -/
theorem claim_C8_counterexample :
    parseSheet Pc [] = Except.ok ⟨[], []⟩ := by rfl

/-- C8 (corrected).  Header detection checks row index 9 (row 10) first and
accepts it without scanning further when its text contains a search term;
otherwise the scan covers indices 4..`min 15 length - 1` (rows 5–15) in
order and the first match wins; when the sheet is nonempty and no row in
that range matches, parsing fails with a parse error — but a sheet with no
rows at all short-circuits to an empty success result instead of an error. -/
theorem claim_C8_amended (P : JsPrims) (jd : List (List Value)) :
    (9 < jd.length → rowMatches P (jd.getD 9 []) = true →
      findHeaderRow P jd = some 9) ∧
    (∀ i, findHeaderRow P jd = some i → ¬ i = 9 →
      4 ≤ i ∧ i < min 15 jd.length ∧ rowMatches P (jd.getD i []) = true ∧
      ∀ j, 4 ≤ j → j < i → rowMatches P (jd.getD j []) = false) ∧
    (¬ jd = [] →
      (∀ j, 4 ≤ j → j < min 15 jd.length →
        rowMatches P (jd.getD j []) = false) →
      ∃ e, parseSheet P jd = Except.error e) := by
  refine ⟨?_, ?_, ?_⟩
  · intro h1 h2
    rw [findHeaderRow, if_pos ⟨h1, h2⟩]
  · intro i hfind hne
    rw [findHeaderRow] at hfind
    by_cases hc : 9 < jd.length ∧ rowMatches P (jd.getD 9 []) = true
    · rw [if_pos hc] at hfind
      exact absurd (by injection hfind; omega) hne
    · rw [if_neg hc] at hfind
      obtain ⟨h1, h2, h3, h4⟩ := find_range'_spec _ _ _ _ hfind
      refine ⟨h1, by omega, h3, fun j hj1 hj2 => h4 j hj1 hj2⟩
  · intro hne hno
    have hfind : findHeaderRow P jd = none := by
      rw [findHeaderRow]
      have hlen : 0 < jd.length := List.length_pos.mpr hne
      have hc : ¬ (9 < jd.length ∧ rowMatches P (jd.getD 9 []) = true) := by
        rintro ⟨h9, hm⟩
        have h0 : rowMatches P (jd.getD 9 []) = false :=
          hno 9 (by omega) (by omega)
        rw [h0] at hm
        exact absurd hm (by decide)
      rw [if_neg hc]
      refine List.find?_eq_none.mpr (fun x hx => ?_)
      rw [List.mem_range'] at hx
      obtain ⟨i, hi, rfl⟩ := hx
      have h0 : rowMatches P (jd.getD (4 + 1 * i) []) = false :=
        hno _ (by omega) (by omega)
      simp only [h0]
      decide
    simp [parseSheet, hne, hfind]

/-- Witness for C8: a ten-row sheet whose header row sits at index 9 is
accepted by the row-10 fast path. -/
theorem claim_C8_witness :
    findHeaderRow Pc
      [[], [], [], [], [], [], [], [], [],
        [Value.str "Lesson Date", Value.str "Client Name"]] = some 9 :=
  (claim_C8_amended Pc
    [[], [], [], [], [], [], [], [], [],
      [Value.str "Lesson Date", Value.str "Client Name"]]).1
    (by decide) (by decide)

theorem insRows_noFail_total {α : Type} (fid : Nat) (f : α → InvoiceRecord) :
    ∀ (rs : List α) (st : Store), ∃ st',
      rs.foldlM (fun a r => insRowW noFail a fid (f r)) st = some st' := by
  intro rs
  induction rs with
  | nil => intro st; exact ⟨st, rfl⟩
  | cons r rest ih =>
    intro st
    rw [List.foldlM_cons]
    have h : insRowW noFail st fid (f r) = some
        ⟨st.files, st.rows ++ [⟨st.nextRowId, fid, f r, none⟩], st.cols,
          st.nextFileId, st.nextRowId + 1, st.nextColId⟩ := by
      simp [insRowW, noFail]
    obtain ⟨st', h'⟩ := ih
      ⟨st.files, st.rows ++ [⟨st.nextRowId, fid, f r, none⟩], st.cols,
        st.nextFileId, st.nextRowId + 1, st.nextColId⟩
    refine ⟨st', ?_⟩
    rw [h]
    exact h'

theorem insCols_noFail_total (fid : Nat) :
    ∀ (cs : List String) (st : Store), ∃ st',
      cs.foldlM (fun a c => insColW noFail a fid c) st = some st' := by
  intro cs
  induction cs with
  | nil => intro st; exact ⟨st, rfl⟩
  | cons c rest ih =>
    intro st
    rw [List.foldlM_cons]
    have h : insColW noFail st fid c = some
        ⟨st.files, st.rows, st.cols ++ [⟨st.nextColId, fid, c⟩],
          st.nextFileId, st.nextRowId, st.nextColId + 1⟩ := by
      simp [insColW, noFail]
    obtain ⟨st', h'⟩ := ih
      ⟨st.files, st.rows, st.cols ++ [⟨st.nextColId, fid, c⟩],
        st.nextFileId, st.nextRowId, st.nextColId + 1⟩
    refine ⟨st', ?_⟩
    rw [h]
    exact h'

theorem saveBody_noFail_total (P : JsPrims) (st : Store) (fn hash : String)
    (data : ParsedInvoiceData) :
    ∃ st', saveBody noFail P st fn hash data = some (st.nextFileId, st') := by
  have h1 : insFileW noFail st fn hash (data.totalAmount.getD 0) = some
      (st.nextFileId,
        ⟨st.files ++ [⟨st.nextFileId, fn, hash, data.totalAmount.getD 0⟩],
          st.rows, st.cols, st.nextFileId + 1, st.nextRowId, st.nextColId⟩) := by
    simp [insFileW, noFail]
  obtain ⟨s2, h2⟩ := insRows_noFail_total st.nextFileId (serializeRecord P)
    data.records
    ⟨st.files ++ [⟨st.nextFileId, fn, hash, data.totalAmount.getD 0⟩],
      st.rows, st.cols, st.nextFileId + 1, st.nextRowId, st.nextColId⟩
  obtain ⟨s3, h3⟩ := insCols_noFail_total st.nextFileId data.columns s2
  refine ⟨s3, ?_⟩
  rw [saveBody]
  simp only [h1, h2, h3]

/-- Inherited emptiness: a filter that is empty on `l` is empty on any
further filtering of `l`. -/
theorem filter_filter_nil {α : Type} (p q : α → Bool) (l : List α)
    (h : l.filter p = []) : (l.filter q).filter p = [] := by
  refine List.filter_eq_nil_iff.mpr (fun a ha => ?_)
  have ha' : a ∈ l := (List.mem_filter.mp ha).1
  exact (List.filter_eq_nil_iff.mp h) a ha'

/-- In a well-formed store no table row references the next (still unused)
file id. -/
theorem stale_filters (s : Store) (hwf : StoreWF s) :
    s.files.filter (·.id == s.nextFileId) = [] ∧
    s.rows.filter (·.fileId == s.nextFileId) = [] ∧
    s.cols.filter (·.fileId == s.nextFileId) = [] := by
  obtain ⟨h1, h2, h3⟩ := hwf
  refine ⟨?_, ?_, ?_⟩
  · exact List.filter_eq_nil_iff.mpr (fun a ha => by
      have := h1 a ha; simp; omega)
  · exact List.filter_eq_nil_iff.mpr (fun a ha => by
      have := h2 a ha; simp; omega)
  · exact List.filter_eq_nil_iff.mpr (fun a ha => by
      have := h3 a ha; simp; omega)

theorem delFileW_noFail (s : Store) (fid : Nat) :
    delFileW noFail s fid = some
      ⟨s.files.filter (fun f => ¬ f.id = fid),
        s.rows.filter (fun r => ¬ r.fileId = fid),
        s.cols.filter (fun c => ¬ c.fileId = fid),
        s.nextFileId, s.nextRowId, s.nextColId⟩ := by
  simp [delFileW, noFail]

theorem insRows_ok {α : Type} (fail : FailOracle) (fid : Nat)
    (f : α → InvoiceRecord) :
    ∀ (rs : List α) (st st' : Store),
      rs.foldlM (fun a r => insRowW fail a fid (f r)) st = some st' →
      st'.files = st.files ∧ st'.cols = st.cols ∧
      st'.nextFileId = st.nextFileId ∧ st'.nextColId = st.nextColId ∧
      ∀ g, (st'.rows.filter (·.fileId == g)).map (·.record)
        = (st.rows.filter (·.fileId == g)).map (·.record) ++
          (if g = fid then rs.map f else []) := by
  intro rs
  induction rs with
  | nil =>
    intro st st' h
    simp only [List.foldlM_nil] at h
    obtain rfl : st = st' := by injection h
    simp
  | cons r rest ih =>
    intro st st' h
    rw [List.foldlM_cons] at h
    by_cases hf : fail (WriteOp.insRow fid (f r))
    · simp [insRowW, hf] at h
    · simp only [insRowW, hf, if_false, Bool.false_eq_true, Option.some_bind] at h
      obtain ⟨h1, h2, h3, h4, h5⟩ := ih _ _ h
      refine ⟨h1, h2, h3, h4, fun g => ?_⟩
      rw [h5 g]
      simp only [List.filter_append, List.map_append]
      by_cases hg : g = fid
      · subst hg
        simp [List.filter, List.map]
      · have hb : ((fid : Nat) == g) = false := by simp [Ne.symm hg]
        simp [List.filter, hb, hg]

theorem insCols_ok (fail : FailOracle) (fid : Nat) :
    ∀ (cs : List String) (st st' : Store),
      cs.foldlM (fun a c => insColW fail a fid c) st = some st' →
      st'.files = st.files ∧ st'.rows = st.rows ∧
      st'.nextFileId = st.nextFileId ∧ st'.nextRowId = st.nextRowId ∧
      ∀ g, (st'.cols.filter (·.fileId == g)).map (·.column)
        = (st.cols.filter (·.fileId == g)).map (·.column) ++
          (if g = fid then cs else []) := by
  intro cs
  induction cs with
  | nil =>
    intro st st' h
    simp only [List.foldlM_nil] at h
    obtain rfl : st = st' := by injection h
    simp
  | cons c rest ih =>
    intro st st' h
    rw [List.foldlM_cons] at h
    by_cases hf : fail (WriteOp.insCol fid c)
    · simp [insColW, hf] at h
    · simp only [insColW, hf, if_false, Bool.false_eq_true, Option.some_bind] at h
      obtain ⟨h1, h2, h3, h4, h5⟩ := ih _ _ h
      refine ⟨h1, h2, h3, h4, fun g => ?_⟩
      rw [h5 g]
      simp only [List.filter_append, List.map_append]
      by_cases hg : g = fid
      · subst hg
        simp [List.filter, List.map]
      · have hb : ((fid : Nat) == g) = false := by simp [Ne.symm hg]
        simp [List.filter, hb, hg]

theorem saveBody_ok (fail : FailOracle) (P : JsPrims) (st : Store)
    (fn hash : String) (data : ParsedInvoiceData) (fid : Nat) (st' : Store)
    (h : saveBody fail P st fn hash data = some (fid, st')) :
    fid = st.nextFileId ∧
    st'.files = st.files ++ [⟨st.nextFileId, fn, hash, data.totalAmount.getD 0⟩] ∧
    (∀ g, (st'.rows.filter (·.fileId == g)).map (·.record)
      = (st.rows.filter (·.fileId == g)).map (·.record) ++
        (if g = fid then data.records.map (serializeRecord P) else [])) ∧
    (∀ g, (st'.cols.filter (·.fileId == g)).map (·.column)
      = (st.cols.filter (·.fileId == g)).map (·.column) ++
        (if g = fid then data.columns else [])) := by
  rw [saveBody] at h
  split at h
  · exact absurd h (by simp)
  · rename_i fid1 s1 heq1
    split at h
    · exact absurd h (by simp)
    · rename_i s2 heq2
      split at h
      · exact absurd h (by simp)
      · rename_i s3 heq3
        have hp : (fid1, s3) = (fid, st') := by injection h
        obtain ⟨rfl, rfl⟩ := Prod.mk.inj hp
        rw [insFileW] at heq1
        by_cases hf : fail (WriteOp.insFile fn hash (data.totalAmount.getD 0))
        · rw [if_pos hf] at heq1; exact absurd heq1 (by simp)
        · rw [if_neg hf] at heq1
          obtain ⟨rfl, rfl⟩ := Prod.mk.inj (Option.some.inj heq1)
          obtain ⟨r1, r2, r3, r4, r5⟩ := insRows_ok fail _
            (serializeRecord P) data.records _ _ heq2
          obtain ⟨c1, c2, c3, c4, c5⟩ := insCols_ok fail _
            data.columns _ _ heq3
          refine ⟨rfl, ?_, ?_, ?_⟩
          · rw [c1, r1]
          · intro g
            rw [c2, r5 g]
          · intro g
            rw [c5 g, r2]

/-- `saveInvoiceData` satisfies the all-or-nothing contract for any failure
oracle. -/
theorem saveWrap_outcome (fail : FailOracle) (P : JsPrims) (s : Store)
    (fn hash : String) (data : ParsedInvoiceData) (hwf : StoreWF s) :
    CommitOutcome P s (saveInvoiceData fail P s fn hash data) fn hash data := by
  rw [saveInvoiceData]
  cases hsb : saveBody fail P s fn hash data with
  | none => exact Or.inl ⟨rfl, rfl⟩
  | some out =>
    obtain ⟨nf, s'⟩ := out
    obtain ⟨hfid, hfiles, hrows, hcols⟩ := saveBody_ok fail P s fn hash data nf s' hsb
    subst hfid
    obtain ⟨hsf, hsr, hsc⟩ := stale_filters s hwf
    refine Or.inr ⟨s.nextFileId, rfl, ?_, ?_, ?_⟩
    · rw [hfiles, List.filter_append, hsf]
      simp
    · rw [hrows s.nextFileId, hsr]
      simp
    · rw [getFileColumns, hcols s.nextFileId, hsc]
      simp

/-- Any delete-then-save transaction satisfies the all-or-nothing contract
for any failure oracle. -/
theorem replaceWrap_outcome (fail : FailOracle) (P : JsPrims) (s : Store)
    (fid : Nat) (fn hash : String) (expected : ParsedInvoiceData)
    (hwf : StoreWF s) :
    CommitOutcome P s
      (match replaceBody fail P s fid fn hash expected with
        | some (nf, s') => (Except.ok nf, s')
        | none => (Except.error (), s)) fn hash expected := by
  cases hdel : delFileW fail s fid with
  | none =>
    simp only [replaceBody, hdel]
    exact Or.inl ⟨rfl, rfl⟩
  | some s1 =>
    simp only [replaceBody, hdel]
    have hs1 : s1 =
        ⟨s.files.filter (fun f => ¬ f.id = fid),
          s.rows.filter (fun r => ¬ r.fileId = fid),
          s.cols.filter (fun c => ¬ c.fileId = fid),
          s.nextFileId, s.nextRowId, s.nextColId⟩ := by
      rw [delFileW] at hdel
      by_cases hf : fail (WriteOp.delFile fid)
      · rw [if_pos hf] at hdel; cases hdel
      · rw [if_neg hf] at hdel
        exact (Option.some.inj hdel).symm
    subst hs1
    obtain ⟨hsf, hsr, hsc⟩ := stale_filters s hwf
    have hsf1 : (s.files.filter (fun f => ¬ f.id = fid)).filter
        (·.id == s.nextFileId) = [] := filter_filter_nil _ _ _ hsf
    have hsr1 : (s.rows.filter (fun r => ¬ r.fileId = fid)).filter
        (·.fileId == s.nextFileId) = [] := filter_filter_nil _ _ _ hsr
    have hsc1 : (s.cols.filter (fun c => ¬ c.fileId = fid)).filter
        (·.fileId == s.nextFileId) = [] := filter_filter_nil _ _ _ hsc
    cases hsb : saveBody fail P
        ⟨s.files.filter (fun f => ¬ f.id = fid),
          s.rows.filter (fun r => ¬ r.fileId = fid),
          s.cols.filter (fun c => ¬ c.fileId = fid),
          s.nextFileId, s.nextRowId, s.nextColId⟩ fn hash expected with
    | none =>
      simp only [hsb]
      exact Or.inl ⟨rfl, rfl⟩
    | some out =>
      obtain ⟨nf, s'⟩ := out
      simp only [hsb]
      obtain ⟨hfid, hfiles, hrows, hcols⟩ :=
        saveBody_ok fail P _ fn hash expected nf s' hsb
      refine Or.inr ⟨nf, rfl, ?_, ?_, ?_⟩
      · rw [hfiles]
        rw [List.filter_append]
        have hnf : nf = s.nextFileId := hfid
        subst hnf
        rw [hsf1]
        simp
      · rw [hrows nf]
        have hnf : nf = s.nextFileId := hfid
        subst hnf
        rw [hsr1]
        simp
      · rw [getFileColumns, hcols nf]
        have hnf : nf = s.nextFileId := hfid
        subst hnf
        rw [hsc1]
        simp

/-- C9 (confirmed).  For every failure oracle (covering constraint
violations, I/O errors, ...), each of save, replace and merge either commits
the file row, all its row records and all its column records together, or
errors leaving the store exactly in its prior state — never a partial
commit. -/
theorem claim_C9_store_atomicity (fail : FailOracle) (P : JsPrims)
    (s : Store) (fid : Nat) (filename contentHash : String)
    (data : ParsedInvoiceData) (hwf : StoreWF s) :
    CommitOutcome P s (saveInvoiceData fail P s filename contentHash data)
      filename contentHash data ∧
    CommitOutcome P s (replaceFile fail P s fid filename contentHash data)
      filename contentHash data ∧
    CommitOutcome P s (mergeFile fail P s fid filename contentHash data)
      filename contentHash (mergedDataOf P s fid data) := by
  refine ⟨saveWrap_outcome fail P s filename contentHash data hwf, ?_, ?_⟩
  · exact replaceWrap_outcome fail P s fid filename contentHash data hwf
  · exact replaceWrap_outcome fail P s fid filename contentHash
      (mergedDataOf P s fid data) hwf

/-- Witness for C9 on the empty store, a one-row file, and the oracle that
fails every row insert (forcing the rollback branch for save). -/
theorem claim_C9_witness :
    CommitOutcome Pc ⟨[], [], [], 0, 0, 0⟩
      (saveInvoiceData (fun op => match op with
        | WriteOp.insRow _ _ => true
        | _ => false) Pc ⟨[], [], [], 0, 0, 0⟩ "f.xlsx" "h"
        ⟨[[("Client Name", Value.str "A")]], ["Client Name"], none⟩)
      "f.xlsx" "h"
      ⟨[[("Client Name", Value.str "A")]], ["Client Name"], none⟩ :=
  (claim_C9_store_atomicity (fun op => match op with
      | WriteOp.insRow _ _ => true
      | _ => false) Pc ⟨[], [], [], 0, 0, 0⟩ 0 "f.xlsx" "h"
    ⟨[[("Client Name", Value.str "A")]], ["Client Name"], none⟩
    (by simp [StoreWF])).1

/-- C4 (confirmed).  Merging a new parsed file into a stored file with `n`
rows stores exactly `n + k` rows under the new file id, where `k` counts the
new rows whose row key is absent from the existing rows' keys; with zero
disjoint keys the stored row count stays `n`. -/
theorem claim_C4_merge_additive (P : JsPrims) (s : Store)
    (existingFileId : Nat) (filename contentHash : String)
    (data : ParsedInvoiceData) (hwf : StoreWF s) :
    ∃ nf s',
      mergeFile noFail P s existingFileId filename contentHash data
        = (Except.ok nf, s') ∧
      (getFileRecords s' nf).length
        = (getFileRecords s existingFileId).length +
          (data.records.filter (fun r =>
            ¬ ((getFileRecords s existingFileId).map
              (getRecordKey P)).contains (getRecordKey P r))).length ∧
      ((data.records.filter (fun r =>
            ¬ ((getFileRecords s existingFileId).map
              (getRecordKey P)).contains (getRecordKey P r))).length = 0 →
        (getFileRecords s' nf).length
          = (getFileRecords s existingFileId).length) := by
  obtain ⟨s2, hsb⟩ := saveBody_noFail_total P
    ⟨s.files.filter (fun f => ¬ f.id = existingFileId),
      s.rows.filter (fun r => ¬ r.fileId = existingFileId),
      s.cols.filter (fun c => ¬ c.fileId = existingFileId),
      s.nextFileId, s.nextRowId, s.nextColId⟩ filename contentHash
    (mergedDataOf P s existingFileId data)
  have hmerge : mergeFile noFail P s existingFileId filename contentHash data
      = (Except.ok s.nextFileId, s2) := by
    simp only [mergeFile, replaceBody, delFileW_noFail, hsb]
  obtain ⟨hfid, hfiles, hrows, hcols⟩ :=
    saveBody_ok noFail P _ filename contentHash
      (mergedDataOf P s existingFileId data) s.nextFileId s2 hsb
  obtain ⟨hsf, hsr, hsc⟩ := stale_filters s hwf
  have hsr1 : ((s.rows.filter (fun r => ¬ r.fileId = existingFileId)).filter
      (·.fileId == s.nextFileId)) = [] := filter_filter_nil _ _ _ hsr
  have hlen : (getFileRecords s2 s.nextFileId).length
      = (mergedDataOf P s existingFileId data).records.length := by
    rw [getFileRecords]
    rw [List.length_map]
    have hx := congrArg List.length (hrows s.nextFileId)
    rw [List.length_map] at hx
    rw [hx, hsr1]
    simp
  have hmlen : (mergedDataOf P s existingFileId data).records.length
      = (getFileRecords s existingFileId).length +
        (data.records.filter (fun r =>
          ¬ ((getFileRecords s existingFileId).map
            (getRecordKey P)).contains (getRecordKey P r))).length := by
    rw [mergedDataOf]
    simp
  refine ⟨s.nextFileId, s2, hmerge, ?_, ?_⟩
  · rw [hlen, hmlen]
  · intro hk
    rw [hlen, hmlen, hk]
    omega

/-- Witness for C4: merging a one-row file into the empty store (no existing
rows, so `n = 0` and `k = 1`). -/
theorem claim_C4_witness :
    ∃ nf s',
      mergeFile noFail Pc ⟨[], [], [], 0, 0, 0⟩ 0 "f.xlsx" "h"
        ⟨[[("Client Name", Value.str "A")]], ["Client Name"], none⟩
        = (Except.ok nf, s') ∧
      (getFileRecords s' nf).length
        = (getFileRecords (⟨[], [], [], 0, 0, 0⟩ : Store) 0).length +
          ((⟨[[("Client Name", Value.str "A")]], ["Client Name"],
              none⟩ : ParsedInvoiceData).records.filter (fun r =>
            ¬ ((getFileRecords (⟨[], [], [], 0, 0, 0⟩ : Store) 0).map
              (getRecordKey Pc)).contains (getRecordKey Pc r))).length ∧
      (((⟨[[("Client Name", Value.str "A")]], ["Client Name"],
              none⟩ : ParsedInvoiceData).records.filter (fun r =>
            ¬ ((getFileRecords (⟨[], [], [], 0, 0, 0⟩ : Store) 0).map
              (getRecordKey Pc)).contains (getRecordKey Pc r))).length = 0 →
        (getFileRecords s' nf).length
          = (getFileRecords (⟨[], [], [], 0, 0, 0⟩ : Store) 0).length) :=
  claim_C4_merge_additive Pc ⟨[], [], [], 0, 0, 0⟩ 0 "f.xlsx" "h"
    ⟨[[("Client Name", Value.str "A")]], ["Client Name"], none⟩
    (by simp [StoreWF])


theorem countP_congr' {α : Type} (p q : α → Bool) :
    ∀ l : List α, (∀ a ∈ l, p a = q a) → l.countP p = l.countP q := by
  intro l
  induction l with
  | nil => intro _; rfl
  | cons a t ih =>
    intro h
    rw [List.countP_cons, List.countP_cons, h a (by simp),
      ih (fun b hb => h b (by simp [hb]))]

theorem lookup_isSome_iff {β : Type} (k : String) :
    ∀ m : List (String × β), (m.lookup k).isSome = true ↔ k ∈ m.map (·.1) := by
  intro m
  induction m with
  | nil => simp
  | cons a t ih =>
    rcases a with ⟨x, y⟩
    rw [List.lookup_cons]
    by_cases h : (k == x) = true
    · simp only [h, List.map_cons, List.mem_cons]
      exact ⟨fun _ => Or.inl (eq_of_beq h), fun _ => by rfl⟩
    · rw [Bool.not_eq_true] at h
      have hne : ¬ k = x := by
        intro he; subst he; simp at h
      simp only [h, List.map_cons, List.mem_cons]
      rw [ih]
      constructor
      · exact fun hm => Or.inr hm
      · rintro (he | hm)
        · exact absurd he hne
        · exact hm

theorem lookup_isNone_iff {β : Type} (k : String) (m : List (String × β)) :
    (m.lookup k).isNone = true ↔ ¬ k ∈ m.map (·.1) := by
  rw [← lookup_isSome_iff k m]
  cases m.lookup k <;> simp

theorem mem_keys_iff_any {β : Type} (k : String) (m : List (String × β)) :
    m.any (·.1 == k) = true ↔ k ∈ m.map (·.1) := by
  rw [List.any_eq_true]
  constructor
  · rintro ⟨e, he, hb⟩
    exact List.mem_map.mpr ⟨e, he, eq_of_beq hb⟩
  · intro hm
    obtain ⟨e, he, hk⟩ := List.mem_map.mp hm
    exact ⟨e, he, by simp [hk]⟩

theorem jsMapSet_keys (m : List (String × InvoiceRecord)) (k : String)
    (v : InvoiceRecord) :
    (jsMapSet m k v).map (·.1)
      = if m.any (·.1 == k) then m.map (·.1) else m.map (·.1) ++ [k] := by
  rw [jsMapSet]
  by_cases h : m.any (·.1 == k) = true
  · rw [if_pos h, if_pos h, List.map_map]
    refine List.map_congr_left (fun e he => ?_)
    by_cases hk : e.1 = k
    · simp [hk]
    · simp [hk]
  · rw [Bool.not_eq_true] at h
    rw [if_neg (by simp [h]), if_neg (by simp [h]), List.map_append]
    rfl

theorem buildMap_go_keys_mem (P : JsPrims) :
    ∀ (rs : List InvoiceRecord) (m : List (String × InvoiceRecord))
      (k : String),
      (k ∈ (rs.foldl (fun m r => jsMapSet m (getRecordKey P r) r) m).map (·.1))
        ↔ k ∈ m.map (·.1) ∨ k ∈ rs.map (getRecordKey P) := by
  intro rs
  induction rs with
  | nil => intro m k; simp
  | cons r rest ih =>
    intro m k
    rw [List.foldl_cons, ih, List.map_cons, List.mem_cons, jsMapSet_keys]
    by_cases h : m.any (·.1 == getRecordKey P r) = true
    · rw [if_pos h]
      have hk0 : getRecordKey P r ∈ m.map (·.1) := (mem_keys_iff_any _ _).mp h
      constructor
      · rintro (h1 | h2)
        · exact Or.inl h1
        · exact Or.inr (Or.inr h2)
      · rintro (h1 | h2 | h3)
        · exact Or.inl h1
        · exact Or.inl (h2 ▸ hk0)
        · exact Or.inr h3
    · rw [Bool.not_eq_true] at h
      rw [if_neg (by simp [h])]
      rw [List.mem_append, List.mem_singleton]
      tauto

theorem buildMap_go_nodup (P : JsPrims) :
    ∀ (rs : List InvoiceRecord) (m : List (String × InvoiceRecord)),
      ((m.map (·.1)).Nodup) →
      (((rs.foldl (fun m r => jsMapSet m (getRecordKey P r) r) m).map
        (·.1)).Nodup) := by
  intro rs
  induction rs with
  | nil => intro m h; simpa using h
  | cons r rest ih =>
    intro m h
    rw [List.foldl_cons]
    refine ih _ ?_
    rw [jsMapSet_keys]
    by_cases hany : m.any (·.1 == getRecordKey P r) = true
    · rw [if_pos hany]; exact h
    · rw [Bool.not_eq_true] at hany
      rw [if_neg (by simp [hany])]
      rw [List.nodup_append]
      refine ⟨h, List.nodup_singleton _, ?_⟩
      intro a ha hsing
      rw [List.mem_singleton] at hsing
      subst hsing
      exact absurd ((mem_keys_iff_any _ _).mpr ha) (by simp [hany])

theorem buildMap_go_length (P : JsPrims) :
    ∀ (rs : List InvoiceRecord) (m : List (String × InvoiceRecord)),
      ((rs.map (getRecordKey P)).Nodup) →
      (∀ k ∈ rs.map (getRecordKey P), ¬ k ∈ m.map (·.1)) →
      (rs.foldl (fun m r => jsMapSet m (getRecordKey P r) r) m).length
        = m.length + rs.length := by
  intro rs
  induction rs with
  | nil => intro m _ _; simp
  | cons r rest ih =>
    intro m hnd hfresh
    rw [List.map_cons, List.nodup_cons] at hnd
    obtain ⟨hk0r, hndr⟩ := hnd
    have hk0 : ¬ getRecordKey P r ∈ m.map (·.1) := hfresh _ (by simp)
    have hany : ¬ m.any (·.1 == getRecordKey P r) = true := by
      intro hc
      exact hk0 ((mem_keys_iff_any _ _).mp hc)
    rw [List.foldl_cons]
    have hfresh' : ∀ k ∈ rest.map (getRecordKey P),
        ¬ k ∈ (jsMapSet m (getRecordKey P r) r).map (·.1) := by
      intro k hk
      rw [jsMapSet_keys, if_neg hany, List.mem_append, List.mem_singleton]
      rintro (hm | he)
      · exact hfresh k (by simp [hk]) hm
      · exact hk0r (he ▸ hk)
    rw [ih _ hndr hfresh']
    have hlen : (jsMapSet m (getRecordKey P r) r).length = m.length + 1 := by
      rw [jsMapSet, if_neg hany, List.length_append]
      rfl
    rw [hlen, List.length_cons]
    omega

theorem diffStep1_spec (exM : List (String × InvoiceRecord)) :
    ∀ newM, (diffStep1 exM newM).added.length
        = newM.countP (fun kv => (exM.lookup kv.1).isNone) ∧
      (diffStep1 exM newM).modified.length + (diffStep1 exM newM).unchanged
        = newM.countP (fun kv => (exM.lookup kv.1).isSome) ∧
      (diffStep1 exM newM).removed = [] := by
  intro newM
  induction newM using List.reverseRecOn with
  | nil => simp [diffStep1]
  | append_singleton t kv ih =>
    obtain ⟨ih1, ih2, ih3⟩ := ih
    rw [diffStep1, List.foldl_concat, ← diffStep1]
    simp only [List.countP_append, List.countP_cons, List.countP_nil]
    cases hl : exM.lookup kv.1 with
    | none =>
      simp only [hl, Option.isNone_none, Option.isSome_none, if_true,
        if_false, Bool.false_eq_true]
      refine ⟨?_, ?_, ih3⟩
      · simp only [List.length_append, ih1, List.length_singleton] <;> omega
      · simp only [ih2] <;> omega
    | some er =>
      simp only [hl, Option.isNone_some, Option.isSome_some, if_true,
        if_false, Bool.false_eq_true]
      by_cases he : recordsEqual er kv.2 = true
      · rw [if_pos he]
        refine ⟨?_, ?_, ih3⟩
        · simp only [ih1] <;> omega
        · simp only [ih2] <;> omega
      · rw [if_neg he]
        refine ⟨?_, ?_, ih3⟩
        · simp only [ih1] <;> omega
        · simp only [List.length_append, ih2, List.length_singleton] <;> omega

theorem removeFold_spec (newM : List (String × InvoiceRecord))
    (d0 : DiffResult) :
    ∀ exM : List (String × InvoiceRecord),
      ((exM.foldl (fun d kv =>
          if (newM.lookup kv.1).isNone then
            { d with removed := d.removed ++ [kv.2] }
          else d) d0).removed.length
        = d0.removed.length + exM.countP (fun kv => (newM.lookup kv.1).isNone)) ∧
      ((exM.foldl (fun d kv =>
          if (newM.lookup kv.1).isNone then
            { d with removed := d.removed ++ [kv.2] }
          else d) d0).added = d0.added) ∧
      ((exM.foldl (fun d kv =>
          if (newM.lookup kv.1).isNone then
            { d with removed := d.removed ++ [kv.2] }
          else d) d0).modified = d0.modified) ∧
      ((exM.foldl (fun d kv =>
          if (newM.lookup kv.1).isNone then
            { d with removed := d.removed ++ [kv.2] }
          else d) d0).unchanged = d0.unchanged) := by
  intro exM
  induction exM using List.reverseRecOn with
  | nil => simp
  | append_singleton t kv ih =>
    obtain ⟨ih1, ih2, ih3, ih4⟩ := ih
    rw [List.foldl_concat]
    simp only [List.countP_append, List.countP_cons, List.countP_nil]
    by_cases hn : (newM.lookup kv.1).isNone = true
    · rw [if_pos hn]
      simp only [hn, if_true]
      refine ⟨?_, ih2, ih3, ih4⟩
      simp only [List.length_append, ih1, List.length_singleton] <;> omega
    · rw [if_neg hn]
      simp only [hn, if_false, Bool.false_eq_true]
      refine ⟨?_, ih2, ih3, ih4⟩
      simp only [ih1] <;> omega

theorem countP_mem_comm (A B : List String) (hA : A.Nodup) (hB : B.Nodup) :
    A.countP (fun k => decide (k ∈ B)) = B.countP (fun k => decide (k ∈ A)) := by
  rw [List.countP_eq_length_filter, List.countP_eq_length_filter]
  refine List.Perm.length_eq ?_
  refine (List.perm_ext_iff_of_nodup (hA.filter _) (hB.filter _)).mpr ?_
  intro a
  simp only [List.mem_filter, decide_eq_true_eq]
  tauto

theorem bool_eq_decide (b : Bool) (p : Prop) [Decidable p]
    (h : b = true ↔ p) : b = decide p := by
  by_cases hp : p
  · rw [h.mpr hp]
    simp [hp]
  · rw [Bool.eq_false_iff.mpr (fun hb => hp (h.mp hb))]
    simp [hp]

/-- C5 (corrected).  When row keys are pairwise distinct within the new
file's rows and within the stored file's (deserialised) rows, the
reconciliation satisfies both partition equations:
`added + modified + unchanged = |new|` and
`removed + modified + unchanged = |existing|`.  (Without distinctness the
keyed `Map`s collapse duplicate-key rows and both sums count distinct keys
instead — see the counterexample.) -/
theorem claim_C5_amended (P : JsPrims) (s : Store) (fid : Nat)
    (newData : ParsedInvoiceData)
    (hnew : (newData.records.map (getRecordKey P)).Nodup)
    (hex : (((getFileRecords s fid).map (deserializeRecord P)).map
      (getRecordKey P)).Nodup) :
    (compareFileData P s fid newData).added.length +
      (compareFileData P s fid newData).modified.length +
      (compareFileData P s fid newData).unchanged = newData.records.length ∧
    (compareFileData P s fid newData).removed.length +
      (compareFileData P s fid newData).modified.length +
      (compareFileData P s fid newData).unchanged
        = (getFileRecords s fid).length := by
  have hexlen : ((getFileRecords s fid).map (deserializeRecord P)).length
      = (getFileRecords s fid).length := List.length_map _ _
  have hc : compareFileData P s fid newData
      = List.foldl (fun d kv =>
          if ((buildMap P newData.records).lookup kv.1).isNone then
            { d with removed := d.removed ++ [kv.2] }
          else d)
        (diffStep1 (buildMap P ((getFileRecords s fid).map
          (deserializeRecord P))) (buildMap P newData.records))
        (buildMap P ((getFileRecords s fid).map (deserializeRecord P))) := rfl
  have hKBnodup : ((buildMap P newData.records).map (·.1)).Nodup := by
    rw [buildMap]
    exact buildMap_go_nodup P newData.records [] (by simp)
  have hKAnodup : ((buildMap P ((getFileRecords s fid).map
      (deserializeRecord P))).map (·.1)).Nodup := by
    rw [buildMap]
    exact buildMap_go_nodup P _ [] (by simp)
  have hKBlen : (buildMap P newData.records).length
      = newData.records.length := by
    rw [buildMap, buildMap_go_length P newData.records [] hnew (by simp)]
    simp
  have hKAlen : (buildMap P ((getFileRecords s fid).map
      (deserializeRecord P))).length
      = ((getFileRecords s fid).map (deserializeRecord P)).length := by
    rw [buildMap, buildMap_go_length P _ [] hex (by simp)]
    simp
  obtain ⟨rf1, rf2, rf3, rf4⟩ := removeFold_spec (buildMap P newData.records)
    (diffStep1 (buildMap P ((getFileRecords s fid).map (deserializeRecord P)))
      (buildMap P newData.records))
    (buildMap P ((getFileRecords s fid).map (deserializeRecord P)))
  obtain ⟨ds1, ds2, ds3⟩ := diffStep1_spec
    (buildMap P ((getFileRecords s fid).map (deserializeRecord P)))
    (buildMap P newData.records)
  generalize hEX : buildMap P ((getFileRecords s fid).map
    (deserializeRecord P)) = exM at *
  generalize hNEW : buildMap P newData.records = newM at *
  constructor
  · rw [hc, rf2, rf3, rf4, ds1]
    have hsum : newM.countP (fun kv => (exM.lookup kv.1).isNone) +
        newM.countP (fun kv => (exM.lookup kv.1).isSome) = newM.length := by
      rw [List.length_eq_countP_add_countP (fun kv =>
        (exM.lookup kv.1).isNone)]
      congr 1
      refine countP_congr' _ _ _ (fun kv _ => ?_)
      cases hl : exM.lookup kv.1 <;> simp [hl]
    omega
  · rw [hc, rf1, rf3, rf4]
    have hr0 : (diffStep1 exM newM).removed.length = 0 := by rw [ds3]; rfl
    have ha : newM.countP (fun kv => (exM.lookup kv.1).isSome)
        = (newM.map (·.1)).countP (fun k => decide (k ∈ exM.map (·.1))) := by
      rw [List.countP_map]
      exact (countP_congr' _ _ _ (fun kv _ =>
        (bool_eq_decide _ _ (lookup_isSome_iff kv.1 exM)).symm)).symm
    have hb : exM.countP (fun kv => (newM.lookup kv.1).isNone)
        = (exM.map (·.1)).countP (fun k =>
            decide (¬ k ∈ newM.map (·.1))) := by
      rw [List.countP_map]
      exact (countP_congr' _ _ _ (fun kv _ =>
        (bool_eq_decide _ _ (lookup_isNone_iff kv.1 newM)).symm)).symm
    have hcm := countP_mem_comm (newM.map (·.1)) (exM.map (·.1))
      hKBnodup hKAnodup
    have hsplit : (exM.map (·.1)).countP (fun k =>
          decide (¬ k ∈ newM.map (·.1))) +
        (exM.map (·.1)).countP (fun k => decide (k ∈ newM.map (·.1)))
        = (exM.map (·.1)).length := by
      rw [List.length_eq_countP_add_countP (fun k =>
        decide (¬ k ∈ newM.map (·.1)))]
      congr 1
      refine countP_congr' _ _ _ (fun k _ => ?_)
      by_cases hm : k ∈ newM.map (·.1) <;> simp [hm]
    have hmaplen : (exM.map (·.1)).length = exM.length := List.length_map _ _
    omega

/-- C5 counterexample.  A new file with two rows sharing one row key
collapses to a single entry in the keyed `Map`, so
`added + modified + unchanged = 1` while the new file has 2 rows — the
claimed partition `added + modified + unchanged = |new|` fails. -/
theorem claim_C5_counterexample :
    (compareFileData Pc
      ⟨[⟨1, "f.xlsx", "h", 0⟩],
        [⟨1, 1, [("Client Name", Value.str "A")], none⟩],
        [⟨1, 1, "Client Name"⟩], 2, 2, 2⟩ 1
      ⟨[[("Client Name", Value.str "B")], [("Client Name", Value.str "B")]],
        ["Client Name"], none⟩).added.length +
    (compareFileData Pc
      ⟨[⟨1, "f.xlsx", "h", 0⟩],
        [⟨1, 1, [("Client Name", Value.str "A")], none⟩],
        [⟨1, 1, "Client Name"⟩], 2, 2, 2⟩ 1
      ⟨[[("Client Name", Value.str "B")], [("Client Name", Value.str "B")]],
        ["Client Name"], none⟩).modified.length +
    (compareFileData Pc
      ⟨[⟨1, "f.xlsx", "h", 0⟩],
        [⟨1, 1, [("Client Name", Value.str "A")], none⟩],
        [⟨1, 1, "Client Name"⟩], 2, 2, 2⟩ 1
      ⟨[[("Client Name", Value.str "B")], [("Client Name", Value.str "B")]],
        ["Client Name"], none⟩).unchanged = 1 ∧
    ((⟨[[("Client Name", Value.str "B")], [("Client Name", Value.str "B")]],
        ["Client Name"], none⟩ : ParsedInvoiceData)).records.length = 2 := by
  decide

/-- Witness for C5 at a one-row stored file and a distinct-keyed new file. -/
theorem claim_C5_witness :
    (compareFileData Pc
      ⟨[⟨1, "f.xlsx", "h", 0⟩],
        [⟨1, 1, [("Client Name", Value.str "A")], none⟩],
        [⟨1, 1, "Client Name"⟩], 2, 2, 2⟩ 1
      ⟨[[("Client Name", Value.str "B")]], ["Client Name"], none⟩).added.length +
    (compareFileData Pc
      ⟨[⟨1, "f.xlsx", "h", 0⟩],
        [⟨1, 1, [("Client Name", Value.str "A")], none⟩],
        [⟨1, 1, "Client Name"⟩], 2, 2, 2⟩ 1
      ⟨[[("Client Name", Value.str "B")]], ["Client Name"], none⟩).modified.length +
    (compareFileData Pc
      ⟨[⟨1, "f.xlsx", "h", 0⟩],
        [⟨1, 1, [("Client Name", Value.str "A")], none⟩],
        [⟨1, 1, "Client Name"⟩], 2, 2, 2⟩ 1
      ⟨[[("Client Name", Value.str "B")]], ["Client Name"], none⟩).unchanged
      = ((⟨[[("Client Name", Value.str "B")]], ["Client Name"],
          none⟩ : ParsedInvoiceData)).records.length :=
  (claim_C5_amended Pc
    ⟨[⟨1, "f.xlsx", "h", 0⟩],
      [⟨1, 1, [("Client Name", Value.str "A")], none⟩],
      [⟨1, 1, "Client Name"⟩], 2, 2, 2⟩ 1
    ⟨[[("Client Name", Value.str "B")]], ["Client Name"], none⟩
    (by decide) (by decide)).1

/-! ## Claim C3: distance symmetry through the caches -/

/-- Lookup in a key-overwritten association list: the overwritten key reads
the new value when present, every other key is untouched. -/
theorem lookup_overwrite (k k' : String) (v : ℚ) :
    ∀ m : MemCache,
      (m.map (fun e => if e.1 = k then (k, v) else e)).lookup k'
        = if k' = k then (if k ∈ m.map (·.1) then some v else none)
          else m.lookup k' := by
  intro m
  induction m with
  | nil =>
    simp only [List.map_nil, List.lookup_nil]
    split <;> simp
  | cons e t ih =>
    rcases e with ⟨x, y⟩
    by_cases he : x = k
    · simp only [List.map_cons, if_pos he, List.lookup_cons]
      by_cases hk : k' = k
      · subst hk
        simp [he]
      · have hb : (k' == k) = false := by simp [hk]
        have hb2 : (k' == x) = false := by simp [he, hk]
        simp [hb, hb2, ih, hk, List.lookup_cons]
    · simp only [List.map_cons, if_neg he, List.lookup_cons]
      by_cases hk : k' = x
      · have hb : (k' == x) = true := by simp [hk]
        have hkk : ¬ k' = k := by rw [hk]; exact he
        simp [hb, hkk, List.lookup_cons]
      · have hb : (k' == x) = false := by simp [hk]
        have hke : ¬ k = x := fun hc => he hc.symm
        simp only [List.lookup_cons, hb, ih]
        by_cases hk2 : k' = k
        · have hmc : (k ∈ x :: List.map (fun e => e.1) t)
              ↔ k ∈ List.map (fun e => e.1) t := by
            simp [hke]
          exact if_congr Iff.rfl (if_congr hmc.symm rfl rfl) rfl
        · simp [hk2]

/-- Lookup distributes over list append, trying the left list first. -/
theorem lookup_append' {β : Type} (k : String) :
    ∀ l1 l2 : List (String × β),
      (l1 ++ l2).lookup k
        = match l1.lookup k with
          | some v => some v
          | none => l2.lookup k := by
  intro l1 l2
  induction l1 with
  | nil => simp
  | cons e t ih =>
    rcases e with ⟨x, y⟩
    by_cases hb : (k == x) = true
    · simp [List.lookup_cons, hb]
    · rw [Bool.not_eq_true] at hb
      simp [List.lookup_cons, hb, ih]

/-- Reading through an in-memory cache write: the written key returns the new
value, any other key is unchanged. -/
theorem memGet_memSet (k k' : String) (v : ℚ) (m : MemCache) :
    memGet (memSet m k v) k' = if k' = k then some v else memGet m k' := by
  rw [memSet, memGet]
  by_cases h : m.any (·.1 == k) = true
  · rw [if_pos h]
    have hmem : k ∈ m.map (·.1) := (mem_keys_iff_any k m).mp h
    have hfx : (fun e : String × ℚ => if e.1 == k then (k, v) else e)
        = (fun e : String × ℚ => if e.1 = k then (k, v) else e) := by
      funext e
      simp
    rw [hfx, lookup_overwrite, if_pos hmem]
    rfl
  · rw [if_neg h]
    have hmem : ¬ k ∈ m.map (·.1) := fun hc => h ((mem_keys_iff_any k m).mpr hc)
    rw [lookup_append']
    by_cases hk : k' = k
    · subst hk
      have hnone : m.lookup k' = none := by
        cases hl : m.lookup k' with
        | none => rfl
        | some w =>
          exact absurd ((lookup_isSome_iff k' m).mp (by rw [hl]; rfl)) hmem
      rw [hnone]
      simp [List.lookup_cons, memGet]
    · have hb : (k' == k) = false := by simp [hk]
      cases hl : m.lookup k' with
      | none => simp [List.lookup_cons, hb, hk, memGet, hl]
      | some w => simp [hk, memGet, hl]

/-- Symmetric lookup of the durable tier is symmetric in its two address
arguments: both orders scan for the same either-orientation match. -/
theorem dbGet_symm (o d : String) :
    ∀ db : DbCache, dbGet db o d = dbGet db d o := by
  intro db
  induction db with
  | nil => rfl
  | cons e rest ih =>
    rw [dbGet, dbGet, ih]
    by_cases h : e.1 = (o, d) ∨ e.1 = (d, o)
    · rw [if_pos h, if_pos h.symm]
    · rw [if_neg h, if_neg (fun hc => h hc.symm)]

/-- Durable-tier lookup over an append scans the left rows first. -/
theorem dbGet_append (o d : String) :
    ∀ l1 l2 : DbCache,
      dbGet (l1 ++ l2) o d
        = match dbGet l1 o d with
          | some v => some v
          | none => dbGet l2 o d := by
  intro l1 l2
  induction l1 with
  | nil => simp [dbGet]
  | cons e rest ih =>
    rw [List.cons_append, dbGet, dbGet]
    by_cases h : e.1 = (o, d) ∨ e.1 = (d, o)
    · rw [if_pos h, if_pos h]
    · rw [if_neg h, if_neg h, ih]

/-- A durable-tier miss means no row matches the pair in either
orientation. -/
theorem dbGet_eq_none_iff (o d : String) :
    ∀ db : DbCache,
      dbGet db o d = none ↔ ∀ e ∈ db, ¬ (e.1 = (o, d) ∨ e.1 = (d, o)) := by
  intro db
  induction db with
  | nil => simp [dbGet]
  | cons e rest ih =>
    rw [dbGet]
    by_cases h : e.1 = (o, d) ∨ e.1 = (d, o)
    · rw [if_pos h]
      simp only [List.mem_cons]
      constructor
      · intro hc; exact absurd hc (by simp)
      · intro hall; exact absurd h (hall e (Or.inl rfl))
    · rw [if_neg h, ih]
      simp only [List.mem_cons]
      constructor
      · rintro hall e' (rfl | he')
        · exact h
        · exact hall e' he'
      · intro hall e' he'; exact hall e' (Or.inr he')

/-- Filtering rows cannot turn a durable-tier miss into a hit. -/
theorem dbGet_filter_none (o d : String) (p : (String × String) × ℚ → Bool)
    (db : DbCache) (h : dbGet db o d = none) :
    dbGet (db.filter p) o d = none := by
  rw [dbGet_eq_none_iff] at h ⊢
  intro e he
  exact h e (List.mem_of_mem_filter he)

/-- After a durable-tier write on a previously missing pair, the pair reads
back the written value. -/
theorem dbGet_dbSet_of_none (o d : String) (v : ℚ) (db : DbCache)
    (h : dbGet db o d = none) :
    dbGet (dbSet db o d v) o d = some v := by
  rw [dbSet, dbGet_append, dbGet_filter_none o d _ db h]
  simp [dbGet]

/-- Inversion of a truthy in-memory hit: a present, nonzero value. -/
theorem truthyHit_some {o : Option ℚ} (h : truthyHit o = true) :
    ∃ w, o = some w ∧ ¬ w = 0 := by
  cases o with
  | none => exact absurd h (by simp [truthyHit])
  | some w =>
    refine ⟨w, rfl, ?_⟩
    simp [truthyHit] at h
    exact h

/-- A present nonzero value is a truthy hit. -/
theorem truthyHit_of {w : ℚ} (hw : ¬ w = 0) : truthyHit (some w) = true := by
  simp [truthyHit, hw]

/-- When the provider path returns a kilometre value, its post-state is
exactly the prior state with the value written through to both tiers. -/
theorem providerPath_some_st (env : GeoEnv) (s : CalcState) (evs : List Ev)
    (o dst nO nD ck : String) (d : ℚ)
    (h : (providerPath env s evs o dst nO nD ck).res = some d) :
    (providerPath env s evs o dst nO nD ck).st
      = ⟨memSet s.mem ck d, dbSet s.db nO nD d⟩ := by
  unfold providerPath at h ⊢
  split at h
  rename_i oc? e1 heq1
  split at h
  · simp at h
  · split at h
    rename_i dc? e2 heq2
    split at h
    · simp at h
    · split at h
      · simp at h
      · split at h
        · simp at h
        · rename_i meters hd
          simp only [CalcOut.res.eq_1, Option.some.injEq] at h
          subst h
          simp_all

/-- A cached second call: if every way the reverse-direction call can read a
value yields `d` (truthy forward key, truthy reverse key, or the durable
tier), the call returns `d` and its trace holds no provider call. -/
theorem calc_second_cached (env : GeoEnv) (mem : MemCache) (db : DbCache)
    (A B : String) (d : ℚ)
    (hEq : ¬ normalizeAddr B = normalizeAddr A)
    (hrk : ∀ w, memGet mem (cacheKeyOf B A) = some w → ¬ w = 0 → w = d)
    (hck : truthyHit (memGet mem (cacheKeyOf B A)) = false →
           ∀ w, memGet mem (cacheKeyOf A B) = some w → ¬ w = 0 → w = d)
    (hdb : truthyHit (memGet mem (cacheKeyOf B A)) = false →
           truthyHit (memGet mem (cacheKeyOf A B)) = false →
           dbGet db (normalizeAddr B) (normalizeAddr A) = some d) :
    (calculateDistance env ⟨mem, db⟩ B A false).res = some d ∧
    providerFree (calculateDistance env ⟨mem, db⟩ B A false).evs = true := by
  rw [calculateDistance]
  simp only [if_neg hEq, Bool.false_eq_true, if_false]
  by_cases hT1 : truthyHit (memGet mem (cacheKeyOf B A)) = true
  · simp only [hT1, if_true]
    obtain ⟨w, hw, hw0⟩ := truthyHit_some hT1
    rw [hw]
    exact ⟨by rw [hrk w hw hw0], by decide⟩
  · rw [Bool.not_eq_true] at hT1
    simp only [hT1, Bool.false_eq_true, if_false]
    by_cases hT2 : truthyHit (memGet mem (cacheKeyOf A B)) = true
    · simp only [hT2, if_true]
      obtain ⟨w, hw, hw0⟩ := truthyHit_some hT2
      rw [hw]
      exact ⟨by rw [hck hT1 w hw hw0], by decide⟩
    · rw [Bool.not_eq_true] at hT2
      simp only [hT2, Bool.false_eq_true, if_false]
      rw [hdb hT1 hT2]
      exact ⟨rfl, rfl⟩

/-- C3 counterexample.  The skip-cache override (`forceRefresh`) breaks the
claimed symmetry: with a provider whose measured routes are
direction-dependent, computing p→q (cached as 1 km) and then calling q→p
with skip-cache re-invokes the provider (refuting "does not re-invoke") and
caches 2 km for the reverse ordering; from then on even plain cached calls
return 2 km for q→p but 1 km for p→q — `distance(B,A)` is not the value
computed and cached for `distance(A,B)`. -/
theorem claim_C3_counterexample :
    ((calculateDistance envAsym ⟨[], []⟩ "p" "q" true).res = some 1 ∧
      (calculateDistance envAsym
        (calculateDistance envAsym ⟨[], []⟩ "p" "q" true).st "q" "p"
        true).res = some 2) ∧
    providerFree (calculateDistance envAsym
        (calculateDistance envAsym ⟨[], []⟩ "p" "q" true).st "q" "p"
        true).evs = false ∧
    ¬ (calculateDistance envAsym
        (calculateDistance envAsym
          (calculateDistance envAsym ⟨[], []⟩ "p" "q" true).st "q" "p"
          true).st "q" "p" false).res
      = (calculateDistance envAsym
        (calculateDistance envAsym
          (calculateDistance envAsym ⟨[], []⟩ "p" "q" true).st "q" "p"
          true).st "p" "q" false).res := by
  have hq1 : (1000 : ℚ) / 1000 = 1 := by norm_num
  have hq2 : (2000 : ℚ) / 1000 = 2 := by norm_num
  have e1x : calculateDistance envAsym ⟨[], []⟩ "p" "q" true
      = ⟨some 1, ⟨[("p|q", 1)], [(("p", "q"), 1)]⟩,
         [Ev.geo "p", Ev.geo "q", Ev.dir]⟩ := by
    have hne : ¬ normalizeAddr "p" = normalizeAddr "q" := by decide
    have hgp : geocodeAddress envAsym "p"
        = (some ((0 : ℚ), (0 : ℚ)), [Ev.geo "p"]) := rfl
    have hgq : geocodeAddress envAsym "q"
        = (some ((1 : ℚ), (1 : ℚ)), [Ev.geo "q"]) := rfl
    have hko : keyOk envAsym = true := rfl
    have hd1 : envAsym.directions ((0 : ℚ), (0 : ℚ)) ((1 : ℚ), (1 : ℚ))
        = some 1000 := rfl
    rw [calculateDistance]
    simp only [if_neg hne, if_pos rfl, providerPath, hgp, hgq, hko, hd1]
    simp [memSet, dbSet, memGet, cacheKeyOf, hq1]
    constructor
    · decide
    · decide
  have e2x : calculateDistance envAsym ⟨[("p|q", 1)], [(("p", "q"), 1)]⟩
        "q" "p" true
      = ⟨some 2,
         ⟨[("p|q", 1), ("q|p", 2)], [(("p", "q"), 1), (("q", "p"), 2)]⟩,
         [Ev.geo "q", Ev.geo "p", Ev.dir]⟩ := by
    have hne : ¬ normalizeAddr "q" = normalizeAddr "p" := by decide
    have hgp : geocodeAddress envAsym "p"
        = (some ((0 : ℚ), (0 : ℚ)), [Ev.geo "p"]) := rfl
    have hgq : geocodeAddress envAsym "q"
        = (some ((1 : ℚ), (1 : ℚ)), [Ev.geo "q"]) := rfl
    have hko : keyOk envAsym = true := rfl
    have hd2 : envAsym.directions ((1 : ℚ), (1 : ℚ)) ((0 : ℚ), (0 : ℚ))
        = some 2000 := rfl
    rw [calculateDistance]
    simp only [if_neg hne, if_pos rfl, providerPath, hgq, hgp, hko, hd2]
    simp [memSet, dbSet, memGet, cacheKeyOf, hq2]
    decide
  rw [e1x]
  rw [show (⟨some 1, ⟨[("p|q", 1)], [(("p", "q"), 1)]⟩,
       [Ev.geo "p", Ev.geo "q", Ev.dir]⟩ : CalcOut).st
      = ⟨[("p|q", 1)], [(("p", "q"), 1)]⟩ from rfl]
  rw [e2x]
  refine ⟨⟨rfl, rfl⟩, rfl, ?_⟩
  intro hcontra
  have h3 : (calculateDistance envAsym
      ⟨[("p|q", 1), ("q|p", 2)], [(("p", "q"), 1), (("q", "p"), 2)]⟩
      "q" "p" false).res = some 2 := rfl
  have h4 : (calculateDistance envAsym
      ⟨[("p|q", 1), ("q|p", 2)], [(("p", "q"), 1), (("q", "p"), 2)]⟩
      "p" "q" false).res = some 1 := rfl
  rw [h3, h4] at hcontra
  injection hcontra with hcontra
  norm_num at hcontra

/-- C3 (corrected).  Without the skip-cache override, symmetry through the
caches does hold: if the in-memory tier holds no conflicting truthy values
for the two orderings of any pair (true of every state the code reaches
without skip-cache), then after a `distance(A,B)` call returns `d`
kilometres, the immediately following `distance(B,A)` call also returns `d`,
and its trace contains no provider call (geocode or directions) — the
lookups check both orderings of the pair in the memory tier and in the
durable tier. -/
theorem claim_C3_amended (env : GeoEnv) (s : CalcState) (A B : String) (d : ℚ)
    (hmc : memConsistent s.mem)
    (h1 : (calculateDistance env s A B false).res = some d) :
    (calculateDistance env (calculateDistance env s A B false).st B A
        false).res = some d ∧
    providerFree
      (calculateDistance env (calculateDistance env s A B false).st B A
          false).evs = true := by
  by_cases hEq : normalizeAddr A = normalizeAddr B
  · have hd0 : d = 0 := by
      rw [calculateDistance] at h1
      simp only [if_pos hEq] at h1
      injection h1 with h1
      exact h1.symm
    subst hd0
    have hEq' : normalizeAddr B = normalizeAddr A := hEq.symm
    rw [calculateDistance]
    simp only [if_pos hEq']
    exact ⟨trivial, rfl⟩
  · have hEq' : ¬ normalizeAddr B = normalizeAddr A := fun hc => hEq hc.symm
    rw [calculateDistance] at h1
    simp only [if_neg hEq, Bool.false_eq_true, if_false] at h1
    by_cases hF : truthyHit (memGet s.mem (cacheKeyOf A B)) = true
    · have hst : (calculateDistance env s A B false).st = s := by
        rw [calculateDistance]
        simp only [if_neg hEq, Bool.false_eq_true, if_false, hF, if_true]
      simp only [hF, if_true] at h1
      obtain ⟨w0, hw0, hw00⟩ := truthyHit_some hF
      have hd0 : ¬ d = 0 := by
        rw [h1] at hw0
        injection hw0 with hw0
        rw [← hw0] at hw00
        exact hw00
      rw [hst]
      rcases s with ⟨mem, db⟩
      refine calc_second_cached env mem db A B d hEq' ?_ ?_ ?_
      · intro w hw hwz
        exact (hmc A B d w h1 hd0 hw hwz).symm
      · intro _ w hw _
        rw [h1] at hw
        injection hw with hw
        exact hw.symm
      · intro _ hckf
        exact absurd hF (by simp [hckf])
    · rw [Bool.not_eq_true] at hF
      simp only [hF, Bool.false_eq_true, if_false] at h1
      by_cases hR : truthyHit (memGet s.mem (cacheKeyOf B A)) = true
      · have hst : (calculateDistance env s A B false).st = s := by
          rw [calculateDistance]
          simp only [if_neg hEq, Bool.false_eq_true, if_false, hF, hR,
            if_true]
        simp only [hR, if_true] at h1
        rw [hst]
        rcases s with ⟨mem, db⟩
        refine calc_second_cached env mem db A B d hEq' ?_ ?_ ?_
        · intro w hw _
          rw [h1] at hw
          injection hw with hw
          exact hw.symm
        · intro hrkf
          exact absurd hR (by simp [hrkf])
        · intro hrkf _
          exact absurd hR (by simp [hrkf])
      · rw [Bool.not_eq_true] at hR
        simp only [hR, Bool.false_eq_true, if_false] at h1
        cases hDb : dbGet s.db (normalizeAddr A) (normalizeAddr B) with
        | some v =>
          rw [hDb] at h1
          have hvd : v = d := by
            simpa using h1
          subst hvd
          have hst : (calculateDistance env s A B false).st
              = ⟨memSet s.mem (cacheKeyOf A B) v, s.db⟩ := by
            rw [calculateDistance]
            simp only [if_neg hEq, Bool.false_eq_true, if_false, hF, hR,
              hDb]
          rw [hst]
          refine calc_second_cached env _ _ A B v hEq' ?_ ?_ ?_
          · intro w hw hwz
            rw [memGet_memSet] at hw
            by_cases hkk : cacheKeyOf B A = cacheKeyOf A B
            · rw [if_pos hkk] at hw
              injection hw with hw
              exact hw.symm
            · rw [if_neg hkk] at hw
              exact absurd (hw ▸ truthyHit_of hwz) (by simp [hR])
          · intro _ w hw _
            rw [memGet_memSet, if_pos rfl] at hw
            injection hw with hw
            exact hw.symm
          · intro _ _
            rw [dbGet_symm]
            exact hDb
        | none =>
          rw [hDb] at h1
          have hst : (calculateDistance env s A B false).st
              = ⟨memSet s.mem (cacheKeyOf A B) d,
                 dbSet s.db (normalizeAddr A) (normalizeAddr B) d⟩ := by
            rw [calculateDistance]
            simp only [if_neg hEq, Bool.false_eq_true, if_false, hF, hR,
              hDb]
            exact providerPath_some_st env s _ A B _ _ _ d h1
          rw [hst]
          refine calc_second_cached env _ _ A B d hEq' ?_ ?_ ?_
          · intro w hw hwz
            rw [memGet_memSet] at hw
            by_cases hkk : cacheKeyOf B A = cacheKeyOf A B
            · rw [if_pos hkk] at hw
              injection hw with hw
              exact hw.symm
            · rw [if_neg hkk] at hw
              exact absurd (hw ▸ truthyHit_of hwz) (by simp [hR])
          · intro _ w hw _
            rw [memGet_memSet, if_pos rfl] at hw
            injection hw with hw
            exact hw.symm
          · intro _ _
            rw [dbGet_symm]
            exact dbGet_dbSet_of_none _ _ _ _ hDb

/-- Witness for C3 from the empty state: a→b computes 1 km through the
provider; the reverse call then reads 1 km from the caches without any
provider call. -/
theorem claim_C3_witness :
    memConsistent ([] : MemCache) ∧
    (calculateDistance envUnit ⟨[], []⟩ "a" "b" false).res = some 1 ∧
    ((calculateDistance envUnit
        (calculateDistance envUnit ⟨[], []⟩ "a" "b" false).st "b" "a"
        false).res = some 1 ∧
      providerFree (calculateDistance envUnit
        (calculateDistance envUnit ⟨[], []⟩ "a" "b" false).st "b" "a"
        false).evs = true) := by
  have hmc : memConsistent ([] : MemCache) := by
    intro x y v w hv hv0 hw hw0
    simp [memGet] at hv
  have h1 : (calculateDistance envUnit ⟨[], []⟩ "a" "b" false).res
      = some 1 := by
    have hne : ¬ normalizeAddr "a" = normalizeAddr "b" := by decide
    have hga : geocodeAddress envUnit "a"
        = (some ((0 : ℚ), (0 : ℚ)), [Ev.geo "a"]) := rfl
    have hgb : geocodeAddress envUnit "b"
        = (some ((0 : ℚ), (0 : ℚ)), [Ev.geo "b"]) := rfl
    have hko : keyOk envUnit = true := rfl
    have hdd : envUnit.directions ((0 : ℚ), (0 : ℚ)) ((0 : ℚ), (0 : ℚ))
        = some 1000 := rfl
    have hm1 : truthyHit (memGet ([] : MemCache) (cacheKeyOf "a" "b"))
        = false := rfl
    have hm2 : truthyHit (memGet ([] : MemCache) (cacheKeyOf "b" "a"))
        = false := rfl
    have hdb : dbGet ([] : DbCache) (normalizeAddr "a") (normalizeAddr "b")
        = none := rfl
    rw [calculateDistance]
    simp only [if_neg hne, Bool.false_eq_true, if_false, hm1, hm2, hdb,
      providerPath, hga, hgb, hko, hdd]
    norm_num
  exact ⟨hmc, h1, claim_C3_amended envUnit ⟨[], []⟩ "a" "b" 1 hmc h1⟩
